import Mathlib

/-!
Shallow embedding of the tile-grid presentation layer of the Tiled editor
excerpt: `TilesetModel` (src/tiled/tilesetmodel.cpp) and the span merge/split
operations of `TilesetView` (src/tiled/tilesetview.cpp).

Machine integers are modelled as `Int` (no arithmetic here approaches 2^31).
C++ `/` and `%` on `int` truncate toward zero, so they are modelled by
`Int.tdiv` / `Int.tmod`.  `float`/`qreal` arithmetic appears only in the
normalized edge distances of `splitSpan` and in `qRound`; it is modelled
exactly over `ℚ`.  Qt types: `QRect` is a record of x/y/width/height with
Qt's `contains`/`isEmpty` semantics (right edge at `x + w - 1`);
`QModelIndex` is `Option (Int × Int)` (`none` = invalid index, whose
`row()`/`column()` accessors return -1 as in Qt).

Mutations are never applied directly by the code: they are pushed as undo
commands (`RemoveTiles`, `ChangeTileImageRect`, `AddTiles`, `RelocateTiles`)
which the document applies synchronously.  The embedding makes this explicit:
`mergeSpan`/`splitSpan`/`dropMimeData` return the list of pushed commands and
`applyCmds` applies them to the tileset.
-/

namespace Tiled

/-- A `QRect`: position and size, in pixels or in grid cells. -/
structure Rect where
  x : Int
  y : Int
  w : Int
  h : Int
deriving DecidableEq, Repr

/-- `QRect::contains(QPoint, proper = false)`: Qt stores `x2 = x + w - 1`,
`y2 = y + h - 1` and normalizes when `x2 < x1 - 1`. -/
def Rect.containsPt (r : Rect) (px py : Int) : Bool :=
  let x1 := r.x
  let x2 := r.x + r.w - 1
  let y1 := r.y
  let y2 := r.y + r.h - 1
  let l := if x2 < x1 - 1 then x2 else x1
  let rr := if x2 < x1 - 1 then x1 else x2
  if px < l || px > rr then false
  else
    let t := if y2 < y1 - 1 then y2 else y1
    let b := if y2 < y1 - 1 then y1 else y2
    if py < t || py > b then false
    else true

/-- `QRect::isEmpty()`: `x1 > x2 || y1 > y2`, i.e. `w ≤ 0 ∨ h ≤ 0`. -/
def Rect.isEmpty (r : Rect) : Bool :=
  r.x > r.x + r.w - 1 || r.y > r.y + r.h - 1

/-- A `QSize` (width, height). -/
structure Size where
  w : Int
  h : Int
deriving DecidableEq, Repr

/-- Modelled from the spec (§3): a tile "identified by an integer id; has an
image rectangle (position+size in the shared atlas image)".  The `Tile` class
itself (libtiled) is outside this source slice.  `tilesetKey` stands for the
C++ `tileset()` back pointer (pointer identity of the owning tileset). -/
structure Tile where
  id : Int
  imageRect : Rect
  tilesetKey : Nat
deriving DecidableEq, Repr

/-- Modelled from the spec (§3): the tileset data consumed by the model/view —
tile width/height, margin, spacing, column/row count, the atlas flag, and the
owned, ordered tile list.  `generateTileId` is the spec's "deterministic id
function of grid position" (glossary; §4.2), whose concrete formula lives in
libtiled outside this slice, so it is kept as an abstract function of
(col, row).  `key` models the tileset's pointer identity. -/
structure Tileset where
  tileWidth : Int
  tileHeight : Int
  margin : Int
  tileSpacing : Int
  columnCount : Int
  rowCount : Int
  isAtlas : Bool
  key : Nat
  tiles : List Tile
  generateTileId : Int → Int → Int

/-- Modelled from the spec (§6): "tile lookup by id" provided by the owning
tileset; returns the first tile with the given id. -/
def Tileset.findTile (ts : Tileset) (tileId : Int) : Option Tile :=
  ts.tiles.find? (fun t => t.id == tileId)

/-- A `QModelIndex` restricted to what this model uses: `none` is the invalid
index, `some (row, col)` a valid one. -/
abbrev Ix := Option (Int × Int)

/-- `QModelIndex::row()`: -1 for the invalid index. -/
def Ix.row : Ix → Int
  | none => -1
  | some p => p.1

/-- `QModelIndex::column()`: -1 for the invalid index. -/
def Ix.col : Ix → Int
  | none => -1
  | some p => p.2

/-- `QModelIndex::isValid()`. -/
def Ix.isValid : Ix → Bool
  | none => false
  | some _ => true

/-- The undoable commands the model/view push onto the document's undo stack,
which applies them synchronously (spec §5). -/
inductive Cmd where
  | removeTiles : List Tile → Cmd
  | changeTileImageRect : Tile → Rect → Cmd
  | addTiles : List Tile → Cmd
  | relocateTiles : List Tile → Int → Cmd
deriving DecidableEq, Repr

/-- The state of `TilesetModel`: the tileset it presents, the cached id list
`mTileIds` (refreshed from the tileset's tile order), the column-count
override and the relocate flag. -/
structure TilesetModel where
  tileset : Tileset
  mTileIds : List Int
  mColumnCountOverride : Int
  mRelocating : Bool

namespace TilesetModel

/-- `TilesetModel::columnCount` (root parent case). -/
def columnCount (m : TilesetModel) : Int :=
  if m.tileset.isAtlas then
    m.tileset.columnCount
  else if m.mColumnCountOverride > 0 then
    m.mColumnCountOverride
  else if m.tileset.columnCount ≠ 0 then
    m.tileset.columnCount
  else
    5

/-- `TilesetModel::rowCount` (root parent case). -/
def rowCount (m : TilesetModel) : Int :=
  if m.tileset.isAtlas then
    m.tileset.rowCount
  else
    let tileCount : Int := m.mTileIds.length
    let columns := m.columnCount
    if columns > 0 then
      (tileCount.tdiv columns) + (if tileCount.tmod columns > 0 then 1 else 0)
    else
      1

/-- `QAbstractItemModel::index(row, col)`: valid only when the cell is within
the model's row/column counts (`hasIndex`). -/
def index (m : TilesetModel) (row col : Int) : Ix :=
  if 0 ≤ row ∧ row < m.rowCount ∧ 0 ≤ col ∧ col < m.columnCount then
    some (row, col)
  else
    none

/-- `TilesetModel::tileAt`. -/
def tileAt (m : TilesetModel) (index : Ix) : Option Tile :=
  match index with
  | none => none
  | some (row, col) =>
    if m.tileset.isAtlas then
      let tileId := m.tileset.generateTileId col row
      m.tileset.findTile tileId
    else
      let tileIndex := col + row * m.columnCount
      if tileIndex < (m.mTileIds.length : Int) then
        match m.mTileIds.get? tileIndex.toNat with
        | some tileId => m.tileset.findTile tileId
        | none => none
      else
        none

/-- `qRound` on an exact rational: `int(d + 0.5)` for `d ≥ 0`, `int(d - 0.5)`
otherwise, where `int(...)` truncates toward zero. -/
def qround (q : ℚ) : Int :=
  if 0 ≤ q then ⌊q + 1/2⌋ else ⌈q - 1/2⌉

/-- `TilesetModel::tileIndex`. -/
def tileIndex (m : TilesetModel) (tile : Tile) : Ix :=
  if m.tileset.isAtlas then
    let spacing := m.tileset.tileSpacing
    let margin := m.tileset.margin
    let tileHeight := m.tileset.tileHeight
    let tileWidth := m.tileset.tileWidth
    let tileRow := qround ((tile.imageRect.y - margin : ℚ) / ((tileHeight : ℚ) + (spacing : ℚ)))
    let tileCol := qround ((tile.imageRect.x - margin : ℚ) / ((tileWidth : ℚ) + (spacing : ℚ)))
    m.index tileRow tileCol
  else
    let columnCount := m.columnCount
    if columnCount ≤ 0 then
      none
    else
      let tileIndex : Int :=
        match m.mTileIds.indexOf? tile.id with
        | some n => (n : Int)
        | none => -1
      m.index (tileIndex.tdiv columnCount) (tileIndex.tmod columnCount)

/-- `TilesetModel::tileSpanSize`. -/
def tileSpanSize (m : TilesetModel) (index : Ix) : Size :=
  if !m.tileset.isAtlas then
    ⟨1, 1⟩
  else
    match m.tileAt index with
    | some tile =>
      let tileWidth := m.tileset.tileWidth
      let tileHeight := m.tileset.tileHeight
      let rect := tile.imageRect
      ⟨rect.w.tdiv tileWidth, rect.h.tdiv tileHeight⟩
    | none => ⟨1, 1⟩

/-- `TilesetModel::findSpanningTile`. -/
def findSpanningTile (m : TilesetModel) (index : Ix) : Option Tile :=
  if !m.tileset.isAtlas then
    none
  else
    m.tileset.tiles.find? (fun tile =>
      let tilePos := m.tileIndex tile
      let span := m.tileSpanSize tilePos
      if span.w ≤ 1 && span.h ≤ 1 then
        false
      else
        decide (index.row ≥ tilePos.row) && decide (index.row < tilePos.row + span.h) &&
        decide (index.col ≥ tilePos.col) && decide (index.col < tilePos.col + span.w))

/-- `TilesetModel::isCellCoveredBySpan`. -/
def isCellCoveredBySpan (m : TilesetModel) (index : Ix) : Bool :=
  if !m.tileset.isAtlas then
    false
  else if (m.tileAt index).isSome then
    false
  else
    (m.findSpanningTile index).isSome

end TilesetModel

/-- A `QMimeData` as used here: whether it carries the `TILES_MIMETYPE`
format, and the encoded byte payload for that format. -/
structure MimeData where
  hasTilesFormat : Bool
  bytes : List Nat

/-- The subset of `Qt::DropAction` relevant to `dropMimeData`. -/
inductive DropAction where
  | move
  | copy
  | ignoreAction
deriving DecidableEq, Repr

/-- A big-endian 32-bit two's-complement integer, as `QDataStream` reads an
`int`. -/
def int32OfBytes (b0 b1 b2 b3 : Nat) : Int :=
  let u : Nat := ((b0 % 256) * 2 ^ 24 + (b1 % 256) * 2 ^ 16 + (b2 % 256) * 2 ^ 8 + (b3 % 256)) % 2 ^ 32
  if u < 2 ^ 31 then (u : Int) else (u : Int) - 2 ^ 32

/-- The `while (!stream.atEnd())` decode loop of `dropMimeData`: reads 32-bit
ids until the stream ends; a truncated trailing read sets a non-Ok status and
breaks the loop, discarding the incomplete tail. -/
def decodeTileIds : List Nat → List Int
  | b0 :: b1 :: b2 :: b3 :: rest => int32OfBytes b0 b1 b2 b3 :: decodeTileIds rest
  | _ => []

namespace TilesetModel

/-- `TilesetModel::dropMimeData`: returns the handled flag and the pushed
commands. -/
def dropMimeData (m : TilesetModel) (data : Option MimeData) (action : DropAction)
    (parent : Ix) : Bool × List Cmd :=
  match data with
  | none => (false, [])
  | some d =>
    if action ≠ DropAction.move then
      (false, [])
    else if !d.hasTilesFormat then
      (false, [])
    else
      let sourceTiles := (decodeTileIds d.bytes).filterMap (fun sourceId => m.tileset.findTile sourceId)
      if sourceTiles.isEmpty then
        (true, [])
      else
        let destinationTile := m.tileAt parent
        let destinationIndex : Int :=
          match destinationTile with
          | some t =>
            match m.mTileIds.indexOf? t.id with
            | some n => (n : Int)
            | none => -1
          | none => (m.mTileIds.length : Int) - 1
        (true, [Cmd.relocateTiles sourceTiles destinationIndex])

/-- The body of the `for (const Tile *tile : tiles)` loop of
`TilesetModel::tilesChanged`, acting on the (topLeft, bottomRight)
accumulator. -/
def tilesChangedStep (m : TilesetModel) (acc : Ix × Ix) (tile : Tile) : Ix × Ix :=
  let topLeft := acc.1
  let bottomRight := acc.2
  let i := m.tileIndex tile
  if !topLeft.isValid then
    (i, i)
  else
    let topLeft' :=
      if i.row < topLeft.row || i.col < topLeft.col then
        m.index (min topLeft.row i.row) (min topLeft.col i.col)
      else
        topLeft
    let bottomRight' :=
      if i.row > bottomRight.row || i.col > bottomRight.col then
        m.index (max bottomRight.row i.row) (max bottomRight.col i.col)
      else
        bottomRight
    (topLeft', bottomRight')

/-- `TilesetModel::tilesChanged`: returns the arguments of the single
`dataChanged` emission, or `none` when nothing is emitted.  (The C++ code
reads `tiles.first()`, so the batch is assumed non-empty; the empty case is
mapped to "no emission".) -/
def tilesChanged (m : TilesetModel) (tiles : List Tile) : Option (Ix × Ix) :=
  match tiles with
  | [] => none
  | first :: _ =>
    if first.tilesetKey ≠ m.tileset.key then
      none
    else
      let result := tiles.foldl m.tilesChangedStep (none, none)
      if result.1.isValid then some result else none

/-- `TilesetModel::tileChanged`: the arguments of its `dataChanged` emission. -/
def tileChanged (m : TilesetModel) (tile : Tile) : Ix × Ix :=
  let i := m.tileIndex tile
  (i, i)

end TilesetModel

/-- Modelled from the spec (§4.2, §8): the `RelocateTiles` command (its class
is outside this slice) moves the given tiles, keeping their order, so that
they sit at the destination position of the ordered tile list. -/
def relocateTileList (tiles : List Tile) (sourceTiles : List Tile) (destinationIndex : Int) :
    List Tile :=
  let kept := tiles.filter (fun t => decide (t ∉ sourceTiles))
  kept.take destinationIndex.toNat ++ sourceTiles ++ kept.drop destinationIndex.toNat

/-- The synchronous effect of one undo command on the tileset (spec §5: the
undo stack "applies them synchronously"). -/
def applyCmd (ts : Tileset) : Cmd → Tileset
  | Cmd.removeTiles rem =>
    { ts with tiles := ts.tiles.filter (fun t => decide (t ∉ rem)) }
  | Cmd.changeTileImageRect tile rect =>
    { ts with tiles := ts.tiles.map (fun t => if t = tile then { t with imageRect := rect } else t) }
  | Cmd.addTiles newTiles =>
    { ts with tiles := ts.tiles ++ newTiles }
  | Cmd.relocateTiles sourceTiles destinationIndex =>
    { ts with tiles := relocateTileList ts.tiles sourceTiles destinationIndex }

/-- Applies a pushed command batch in order. -/
def applyCmds (ts : Tileset) (cmds : List Cmd) : Tileset :=
  cmds.foldl applyCmd ts

namespace TilesetView

/-- The merge pixel rectangle computed by `TilesetView::mergeSpan`. -/
def mergeRect (ts : Tileset) (minRow maxRow minCol maxCol : Int) : Rect :=
  let spanW := maxCol - minCol + 1
  let spanH := maxRow - minRow + 1
  ⟨ts.margin + minCol * (ts.tileWidth + ts.tileSpacing),
   ts.margin + minRow * (ts.tileHeight + ts.tileSpacing),
   spanW * ts.tileWidth,
   spanH * ts.tileHeight⟩

/-- `TilesetView::mergeSpan`: the pushed command batch. -/
def mergeSpan (m : TilesetModel) (minRow maxRow minCol maxCol : Int) : List Cmd :=
  let ts := m.tileset
  let topLeftIndex := m.index minRow minCol
  let targetTile := m.tileAt topLeftIndex
  let rect := mergeRect ts minRow maxRow minCol maxCol
  let notTarget : Tile → Bool := fun tile =>
    match targetTile with
    | some t => decide (tile ≠ t)
    | none => true
  let tilesToRemove := ts.tiles.filter (fun tile =>
    notTarget tile && rect.containsPt tile.imageRect.x tile.imageRect.y)
  let removeCmds := if tilesToRemove.isEmpty then [] else [Cmd.removeTiles tilesToRemove]
  let mainCmds :=
    match targetTile with
    | some t => [Cmd.changeTileImageRect t rect]
    | none =>
      let tileId := ts.generateTileId minCol minRow
      [Cmd.addTiles [⟨tileId, rect, ts.key⟩]]
  removeCmds ++ mainCmds

/-- The closest-edge selection and grid split of `TilesetView::splitSpan`:
given the span's base grid position, its size in cells and the clicked
relative cell, returns `(newSpanGridRect, splitGridRect)`.  The normalized
distances are exact rationals; `std::min({l, r, t, b})` followed by the
`minDist ==` tests picks the first of left/right/top/bottom attaining the
minimum. -/
def splitRects (baseX baseY spanW spanH relativeRow relativeCol : Int) : Rect × Rect :=
  let relColRatio : ℚ := (relativeCol : ℚ) / (spanW : ℚ)
  let relRowRatio : ℚ := (relativeRow : ℚ) / (spanH : ℚ)
  let distToLeft := relColRatio
  let distToRight := 1 - relColRatio
  let distToTop := relRowRatio
  let distToBottom := 1 - relRowRatio
  let minDist := min (min (min distToLeft distToRight) distToTop) distToBottom
  if minDist = distToLeft then
    (⟨baseX + relativeCol + 1, baseY, spanW - relativeCol - 1, spanH⟩,
     ⟨baseX, baseY, relativeCol + 1, spanH⟩)
  else if minDist = distToRight then
    (⟨baseX, baseY, relativeCol, spanH⟩,
     ⟨baseX + relativeCol, baseY, spanW - relativeCol, spanH⟩)
  else if minDist = distToTop then
    (⟨baseX, baseY + relativeRow + 1, spanW, spanH - relativeRow - 1⟩,
     ⟨baseX, baseY, spanW, relativeRow + 1⟩)
  else
    (⟨baseX, baseY, spanW, relativeRow⟩,
     ⟨baseX, baseY + relativeRow, spanW, spanH - relativeRow⟩)

/-- The `toPixelRect` lambda of `TilesetView::splitSpan`. -/
def toPixelRect (ts : Tileset) (gridRect : Rect) : Rect :=
  ⟨ts.margin + gridRect.x * (ts.tileWidth + ts.tileSpacing),
   ts.margin + gridRect.y * (ts.tileHeight + ts.tileSpacing),
   gridRect.w * ts.tileWidth,
   gridRect.h * ts.tileHeight⟩

/-- The cells `(gridX, gridY)` of the split rectangle, in the row-major order
of the `for (r) for (c)` loops of `splitSpan`. -/
def splitCells (gridRect : Rect) : List (Int × Int) :=
  (List.range gridRect.h.toNat).flatMap (fun (r : Nat) =>
    (List.range gridRect.w.toNat).map (fun (c : Nat) =>
      (gridRect.x + (c : Int), gridRect.y + (r : Int))))

/-- `TilesetView::splitSpan`: the pushed command batch (empty when the early
return is taken). -/
def splitSpan (m : TilesetModel) (spanTile : Tile) (relativeRow relativeCol : Int) : List Cmd :=
  let ts := m.tileset
  let tilePos := m.tileIndex spanTile
  let baseX := tilePos.col
  let baseY := tilePos.row
  let span := m.tileSpanSize tilePos
  if span.w ≤ 0 ∨ span.h ≤ 0 ∨
      relativeCol < 0 ∨ relativeCol ≥ span.w ∨
      relativeRow < 0 ∨ relativeRow ≥ span.h then
    []
  else
    let rects := splitRects baseX baseY span.w span.h relativeRow relativeCol
    let newSpanGridRect := rects.1
    let splitGridRect := rects.2
    let newSpanRect := toPixelRect ts newSpanGridRect
    let splitRect := toPixelRect ts splitGridRect
    let tilesToRemove := ts.tiles.filter (fun tile =>
      decide (tile ≠ spanTile) && newSpanRect.containsPt tile.imageRect.x tile.imageRect.y)
    let removeCmds := if tilesToRemove.isEmpty then [] else [Cmd.removeTiles tilesToRemove]
    let resizeCmds :=
      if splitRect.containsPt spanTile.imageRect.x spanTile.imageRect.y then
        [Cmd.changeTileImageRect spanTile
          ⟨spanTile.imageRect.x, spanTile.imageRect.y, ts.tileWidth, ts.tileHeight⟩] ++
        (if !newSpanGridRect.isEmpty then
          [Cmd.addTiles [⟨ts.generateTileId newSpanGridRect.x newSpanGridRect.y,
                          newSpanRect, ts.key⟩]]
        else
          [])
      else
        [Cmd.changeTileImageRect spanTile newSpanRect]
    let newTiles := (splitCells splitGridRect).filterMap (fun cell =>
      let tileId := ts.generateTileId cell.1 cell.2
      if tileId = spanTile.id then
        none
      else
        some ⟨tileId, toPixelRect ts ⟨cell.1, cell.2, 1, 1⟩, ts.key⟩)
    let addCmds := if newTiles.isEmpty then [] else [Cmd.addTiles newTiles]
    removeCmds ++ resizeCmds ++ addCmds

end TilesetView

/-- Spec-side predicate: the cell (or pixel) at (x, y) lies in the half-open
area of a grid rectangle. -/
def cellIn (g : Rect) (x y : Int) : Prop :=
  g.x ≤ x ∧ x < g.x + g.w ∧ g.y ≤ y ∧ y < g.y + g.h

/-- Spec-side predicate: two rectangles have no common point (half-open
areas). -/
def Rect.disjointWith (a b : Rect) : Prop :=
  a.x + a.w ≤ b.x ∨ b.x + b.w ≤ a.x ∨ a.y + a.h ≤ b.y ∨ b.y + b.h ≤ a.y

/-! ## Concrete fixtures used by witnesses and counterexamples -/

/-- A collection tileset holding tiles with ids 7 and 12. -/
def collectionTs : Tileset :=
  ⟨16, 16, 0, 0, 0, 0, false, 0,
    [⟨7, ⟨0, 0, 16, 16⟩, 0⟩, ⟨12, ⟨0, 0, 16, 16⟩, 0⟩], fun c r => c + r⟩

/-- The model over `collectionTs`. -/
def collectionModel : TilesetModel := ⟨collectionTs, [7, 12], 0, false⟩

/-- A 4×4 atlas (1×1-pixel tiles, no margin/spacing) with one 2×2-cell
spanning tile at its origin. -/
def spanTs : Tileset :=
  ⟨1, 1, 0, 0, 4, 4, true, 0, [⟨0, ⟨0, 0, 2, 2⟩, 0⟩], fun c r => c + r * 4⟩

/-- The model over `spanTs`. -/
def spanModel : TilesetModel := ⟨spanTs, [0], 0, false⟩

/-- The 2×2-cell spanning tile of `spanTs`. -/
def spanTile2 : Tile := ⟨0, ⟨0, 0, 2, 2⟩, 0⟩

/-- A 1×1 atlas whose single tile occupies exactly one cell. -/
def unitTs : Tileset :=
  ⟨1, 1, 0, 0, 1, 1, true, 0, [⟨0, ⟨0, 0, 1, 1⟩, 0⟩], fun c r => c + r⟩

/-- The model over `unitTs`. -/
def unitModel : TilesetModel := ⟨unitTs, [0], 0, false⟩

/-- The single 1×1 tile of `unitTs`. -/
def unitTile : Tile := ⟨0, ⟨0, 0, 1, 1⟩, 0⟩

/-- An 8×8 atlas (1×1-pixel tiles, no margin/spacing) with one 3×2-cell
spanning tile anchored at cell (col 1, row 1). -/
def span32Ts : Tileset :=
  ⟨1, 1, 0, 0, 8, 8, true, 0, [⟨9, ⟨1, 1, 3, 2⟩, 0⟩], fun c r => c + r * 8⟩

/-- The model over `span32Ts`. -/
def span32Model : TilesetModel := ⟨span32Ts, [9], 0, false⟩

/-- The 3×2-cell spanning tile of `span32Ts`. -/
def span32Tile : Tile := ⟨9, ⟨1, 1, 3, 2⟩, 0⟩

/-- An 8×8 atlas (3×2-pixel tiles, margin 1, spacing 1) with two tiles: one
anchored at cell (col 3, row 2) — the top-left of the merge example — and one
at cell (col 4, row 2), which a merge over rows 2–3, cols 3–6 removes. -/
def mergeTs : Tileset :=
  ⟨3, 2, 1, 1, 8, 8, true, 0,
    [⟨19, ⟨13, 7, 3, 2⟩, 0⟩, ⟨20, ⟨17, 7, 3, 2⟩, 0⟩], fun c r => c + r * 8⟩

/-- The model over `mergeTs`. -/
def mergeModel : TilesetModel := ⟨mergeTs, [], 0, false⟩

/-! ## Helper lemmas -/

/-- `find?` by id returns the tile itself when it is in the list and its id is
unique there. -/
theorem find_id_eq_some (l : List Tile) (t : Tile) (hmem : t ∈ l)
    (huniq : ∀ u ∈ l, u.id = t.id → u = t) :
    l.find? (fun u => u.id == t.id) = some t := by
  induction l with
  | nil => cases hmem
  | cons v l ih =>
    by_cases hv : v.id = t.id
    · have hvt : v = t := huniq v (List.mem_cons_self _ _) hv
      simp [List.find?, hv, hvt]
    · have hne : v ≠ t := fun h => hv (h ▸ rfl)
      have hmem' : t ∈ l := by
        cases hmem with
        | head => exact absurd rfl hne
        | tail _ h => exact h
      have huniq' : ∀ u ∈ l, u.id = t.id → u = t := fun u hu => huniq u (List.mem_cons_of_mem _ hu)
      rw [List.find?_cons_of_neg _ (by simp [hv])]
      exact ih hmem' huniq'

/-- `findTile` at a tile's own id, under id uniqueness. -/
theorem findTile_eq_some (ts : Tileset) (t : Tile) (hmem : t ∈ ts.tiles)
    (huniq : ∀ u ∈ ts.tiles, u.id = t.id → u = t) :
    ts.findTile t.id = some t :=
  find_id_eq_some ts.tiles t hmem huniq

/-- `qRound` at an exact integer. -/
theorem qround_intCast (n : Int) : TilesetModel.qround ((n : ℚ)) = n := by
  unfold TilesetModel.qround
  by_cases h : (0 : ℚ) ≤ (n : ℚ)
  · rw [if_pos h]
    have : ⌊(n : ℚ) + 1 / 2⌋ = n + ⌊(1 / 2 : ℚ)⌋ := Int.floor_int_add n (1 / 2)
    rw [this]
    norm_num
  · rw [if_neg h, sub_eq_add_neg, add_comm, Int.ceil_add_int]
    norm_num

/-- Inverting a valid model index. -/
theorem index_eq_some (m : TilesetModel) {r c : Int} {p : Int × Int}
    (h : m.index r c = some p) :
    p = (r, c) ∧ 0 ≤ r ∧ r < m.rowCount ∧ 0 ≤ c ∧ c < m.columnCount := by
  unfold TilesetModel.index at h
  by_cases hb : 0 ≤ r ∧ r < m.rowCount ∧ 0 ≤ c ∧ c < m.columnCount
  · rw [if_pos hb] at h
    exact ⟨(Option.some_injective _ h).symm, hb.1, hb.2.1, hb.2.2.1, hb.2.2.2⟩
  · rw [if_neg hb] at h
    cases h

/-- Building a valid model index. -/
theorem index_eq_some_of_bounds (m : TilesetModel) {r c : Int}
    (h : 0 ≤ r ∧ r < m.rowCount ∧ 0 ≤ c ∧ c < m.columnCount) :
    m.index r c = some (r, c) := by
  unfold TilesetModel.index
  rw [if_pos h]

/-- For an atlas tileset, `tileIndex` of a tile anchored at grid cell
(col, row) recomputes exactly that cell: the rounded division is exact. -/
theorem tileIndex_anchored (m : TilesetModel) (t : Tile) (row col : Int)
    (hatlas : m.tileset.isAtlas = true)
    (hw : 0 < m.tileset.tileWidth + m.tileset.tileSpacing)
    (hh : 0 < m.tileset.tileHeight + m.tileset.tileSpacing)
    (hx : t.imageRect.x = m.tileset.margin + col * (m.tileset.tileWidth + m.tileset.tileSpacing))
    (hy : t.imageRect.y = m.tileset.margin + row * (m.tileset.tileHeight + m.tileset.tileSpacing)) :
    m.tileIndex t = m.index row col := by
  unfold TilesetModel.tileIndex
  rw [if_pos hatlas]
  have hwq : ((m.tileset.tileWidth : ℚ) + (m.tileset.tileSpacing : ℚ)) ≠ 0 := by
    have : (0 : ℚ) < (m.tileset.tileWidth : ℚ) + (m.tileset.tileSpacing : ℚ) := by
      exact_mod_cast hw
    exact ne_of_gt this
  have hhq : ((m.tileset.tileHeight : ℚ) + (m.tileset.tileSpacing : ℚ)) ≠ 0 := by
    have : (0 : ℚ) < (m.tileset.tileHeight : ℚ) + (m.tileset.tileSpacing : ℚ) := by
      exact_mod_cast hh
    exact ne_of_gt this
  have hrow : ((t.imageRect.y : ℚ) - (m.tileset.margin : ℚ)) /
      ((m.tileset.tileHeight : ℚ) + (m.tileset.tileSpacing : ℚ)) = (row : ℚ) := by
    rw [hy]
    push_cast
    field_simp
  have hcol : ((t.imageRect.x : ℚ) - (m.tileset.margin : ℚ)) /
      ((m.tileset.tileWidth : ℚ) + (m.tileset.tileSpacing : ℚ)) = (col : ℚ) := by
    rw [hx]
    push_cast
    field_simp
  simp only [hrow, hcol, qround_intCast]

/-! ## Claims -/

/-- C1: for an atlas tileset, `tileAt (tileIndex t) = some t` for every tile
`t` anchored at an in-bounds grid cell (col, row) whose id is the generated
id of that cell (unique in the tileset): the grid position recomputed by
rounding recovers (row, col) exactly, and the id lookup returns `t` itself. -/
theorem tileAt_tileIndex_roundtrip (m : TilesetModel) (t : Tile) (row col : Int)
    (hatlas : m.tileset.isAtlas = true)
    (hw : 0 < m.tileset.tileWidth + m.tileset.tileSpacing)
    (hh : 0 < m.tileset.tileHeight + m.tileset.tileSpacing)
    (hx : t.imageRect.x = m.tileset.margin + col * (m.tileset.tileWidth + m.tileset.tileSpacing))
    (hy : t.imageRect.y = m.tileset.margin + row * (m.tileset.tileHeight + m.tileset.tileSpacing))
    (hrow : 0 ≤ row ∧ row < m.tileset.rowCount)
    (hcol : 0 ≤ col ∧ col < m.tileset.columnCount)
    (hmem : t ∈ m.tileset.tiles)
    (hid : t.id = m.tileset.generateTileId col row)
    (huniq : ∀ u ∈ m.tileset.tiles, u.id = t.id → u = t) :
    m.tileAt (m.tileIndex t) = some t := by
  have hrows : m.rowCount = m.tileset.rowCount := by
    unfold TilesetModel.rowCount
    rw [if_pos hatlas]
  have hcols : m.columnCount = m.tileset.columnCount := by
    unfold TilesetModel.columnCount
    rw [if_pos hatlas]
  have hix : m.tileIndex t = some (row, col) := by
    rw [tileIndex_anchored m t row col hatlas hw hh hx hy]
    exact index_eq_some_of_bounds m
      ⟨hrow.1, hrows ▸ hrow.2, hcol.1, hcols ▸ hcol.2⟩
  have hAt : m.tileAt (some (row, col)) =
      m.tileset.findTile (m.tileset.generateTileId col row) := by
    simp [TilesetModel.tileAt, hatlas]
  rw [hix, hAt, ← hid]
  exact findTile_eq_some m.tileset t hmem huniq

/-- C1 witness: a 3×2-pixel tile anchored at grid cell (col 3, row 2) of an
8×8 atlas with margin 1, spacing 1 round-trips. -/
theorem tileAt_tileIndex_roundtrip_witness :
    (⟨3, 2, 1, 1, 8, 8, true, 0, [⟨19, ⟨13, 7, 3, 2⟩, 0⟩], fun c r => c + r * 8⟩ :
      Tileset).isAtlas = true ∧
    TilesetModel.tileAt
      ⟨⟨3, 2, 1, 1, 8, 8, true, 0, [⟨19, ⟨13, 7, 3, 2⟩, 0⟩], fun c r => c + r * 8⟩, [], 0, false⟩
      (TilesetModel.tileIndex
        ⟨⟨3, 2, 1, 1, 8, 8, true, 0, [⟨19, ⟨13, 7, 3, 2⟩, 0⟩], fun c r => c + r * 8⟩, [], 0, false⟩
        ⟨19, ⟨13, 7, 3, 2⟩, 0⟩) = some ⟨19, ⟨13, 7, 3, 2⟩, 0⟩ :=
  ⟨rfl,
    tileAt_tileIndex_roundtrip
      ⟨⟨3, 2, 1, 1, 8, 8, true, 0, [⟨19, ⟨13, 7, 3, 2⟩, 0⟩], fun c r => c + r * 8⟩, [], 0, false⟩
      ⟨19, ⟨13, 7, 3, 2⟩, 0⟩ 2 3 rfl (by decide) (by decide) (by decide) (by decide)
      (by decide) (by decide) (by decide) (by decide) (by decide)⟩

/-- Ceiling division over ℚ agrees with the code's truncating division plus
remainder bump, for nonnegative numerator and positive denominator. -/
theorem ceil_div_eq_tdiv_add (a b : Int) (ha : 0 ≤ a) (hb : 0 < b) :
    ⌈(a : ℚ) / (b : ℚ)⌉ = a.tdiv b + (if a.tmod b > 0 then 1 else 0) := by
  rw [Int.tdiv_eq_ediv ha hb.le, Int.tmod_eq_emod ha hb.le]
  have hbq : (0 : ℚ) < (b : ℚ) := by exact_mod_cast hb
  have hsplit : b * (a / b) + a % b = a := Int.ediv_add_emod a b
  have hr0 : 0 ≤ a % b := Int.emod_nonneg a hb.ne'
  have hrb : a % b < b := Int.emod_lt_of_pos a hb
  have hsplitq : (b : ℚ) * ((a / b : ℤ) : ℚ) + ((a % b : ℤ) : ℚ) = (a : ℚ) := by
    exact_mod_cast congrArg (fun z : ℤ => (z : ℚ)) hsplit
  have hr0q : (0 : ℚ) ≤ ((a % b : ℤ) : ℚ) := by exact_mod_cast hr0
  have hrbq : ((a % b : ℤ) : ℚ) < (b : ℚ) := by exact_mod_cast hrb
  rw [Int.ceil_eq_iff]
  by_cases hr : a % b > 0
  · have hrq : (0 : ℚ) < ((a % b : ℤ) : ℚ) := by exact_mod_cast hr
    rw [if_pos hr]
    constructor
    · rw [lt_div_iff₀ hbq]
      push_cast
      nlinarith [hsplitq, hrq, hrbq]
    · rw [div_le_iff₀ hbq]
      push_cast
      nlinarith [hsplitq, hrq, hrbq]
  · rw [if_neg hr]
    have hz : a % b = 0 := le_antisymm (not_lt.mp hr) hr0
    have hzq : ((a % b : ℤ) : ℚ) = 0 := by exact_mod_cast hz
    constructor
    · rw [lt_div_iff₀ hbq]
      push_cast
      nlinarith [hsplitq, hzq, hbq]
    · rw [div_le_iff₀ hbq]
      push_cast
      nlinarith [hsplitq, hzq]

/-- C5: for collection (non-atlas) tilesets, with an effective column count
of 5 the row count is `⌈N/5⌉`; a positive column-count override takes
precedence; and with 10 tiles and an override of 3 the model reports 4 rows
and 3 columns. -/
theorem collection_rowCount_columnCount :
    (∀ m : TilesetModel, m.tileset.isAtlas = false → m.columnCount = 5 →
      m.rowCount = ⌈((m.mTileIds.length : ℚ)) / 5⌉) ∧
    (∀ m : TilesetModel, m.tileset.isAtlas = false → 0 < m.mColumnCountOverride →
      m.columnCount = m.mColumnCountOverride) ∧
    (∀ m : TilesetModel, m.tileset.isAtlas = false → m.mColumnCountOverride = 3 →
      m.mTileIds.length = 10 → m.rowCount = 4 ∧ m.columnCount = 3) := by
  refine ⟨?_, ?_, ?_⟩
  · intro m hatlas hcols
    unfold TilesetModel.rowCount
    rw [if_neg (by simp [hatlas]), hcols]
    have h5 : (0 : Int) < 5 := by decide
    have := ceil_div_eq_tdiv_add (m.mTileIds.length : Int) 5 (by positivity) h5
    rw [if_pos h5]
    push_cast at this ⊢
    omega
  · intro m hatlas hover
    unfold TilesetModel.columnCount
    rw [if_neg (by simp [hatlas]), if_pos hover]
  · intro m hatlas hover hlen
    have hcols : m.columnCount = 3 := by
      unfold TilesetModel.columnCount
      rw [if_neg (by simp [hatlas]), if_pos (by omega)]
      exact hover
    refine ⟨?_, hcols⟩
    unfold TilesetModel.rowCount
    rw [if_neg (by simp [hatlas]), hcols, hlen]
    decide

/-- C5 witness: a collection tileset with 7 tiles and stored column count 5
has `⌈7/5⌉` rows; one with 10 tiles and override 3 reports 4 rows and 3
columns. -/
theorem collection_rowCount_columnCount_witness :
    TilesetModel.rowCount
        ⟨⟨16, 16, 0, 0, 5, 2, false, 0, [], fun c r => c + r⟩, [1, 2, 3, 4, 5, 6, 7], 0, false⟩ =
      ⌈((7 : ℚ)) / 5⌉ ∧
    TilesetModel.rowCount
        ⟨⟨16, 16, 0, 0, 0, 0, false, 0, [], fun c r => c + r⟩,
          [1, 2, 3, 4, 5, 6, 7, 8, 9, 10], 3, false⟩ = 4 ∧
    TilesetModel.columnCount
        ⟨⟨16, 16, 0, 0, 0, 0, false, 0, [], fun c r => c + r⟩,
          [1, 2, 3, 4, 5, 6, 7, 8, 9, 10], 3, false⟩ = 3 := by
  refine ⟨?_, ?_⟩
  · have := collection_rowCount_columnCount.1
      ⟨⟨16, 16, 0, 0, 5, 2, false, 0, [], fun c r => c + r⟩, [1, 2, 3, 4, 5, 6, 7], 0, false⟩
      rfl (by decide)
    simpa using this
  · exact collection_rowCount_columnCount.2.2
      ⟨⟨16, 16, 0, 0, 0, 0, false, 0, [], fun c r => c + r⟩,
        [1, 2, 3, 4, 5, 6, 7, 8, 9, 10], 3, false⟩
      rfl (by decide) (by decide)

/-- C10: `tileAt` and `isCellCoveredBySpan` are mutually exclusive — a cell
holding a tile origin is never reported as span-covered, and a cell reported
as span-covered holds no tile origin and is covered by some tile whose span
exceeds 1×1. -/
theorem tileAt_isCellCoveredBySpan_exclusive (m : TilesetModel) (idx : Ix) :
    ((m.tileAt idx).isSome = true → m.isCellCoveredBySpan idx = false) ∧
    (m.isCellCoveredBySpan idx = true →
      m.tileAt idx = none ∧
      ∃ tile ∈ m.tileset.tiles,
        (1 < (m.tileSpanSize (m.tileIndex tile)).w ∨ 1 < (m.tileSpanSize (m.tileIndex tile)).h) ∧
        (m.tileIndex tile).row ≤ idx.row ∧
        idx.row < (m.tileIndex tile).row + (m.tileSpanSize (m.tileIndex tile)).h ∧
        (m.tileIndex tile).col ≤ idx.col ∧
        idx.col < (m.tileIndex tile).col + (m.tileSpanSize (m.tileIndex tile)).w) := by
  constructor
  · intro h
    unfold TilesetModel.isCellCoveredBySpan
    by_cases hatlas : m.tileset.isAtlas
    · rw [if_neg (by simp [hatlas]), if_pos h]
    · rw [if_pos (by simp [hatlas])]
  · intro h
    unfold TilesetModel.isCellCoveredBySpan at h
    by_cases hatlas : m.tileset.isAtlas
    · rw [if_neg (by simp [hatlas])] at h
      by_cases hat : (m.tileAt idx).isSome
      · rw [if_pos hat] at h
        cases h
      · rw [if_neg hat] at h
        refine ⟨Option.not_isSome_iff_eq_none.mp hat, ?_⟩
        unfold TilesetModel.findSpanningTile at h
        rw [if_neg (by simp [hatlas])] at h
        rw [Option.isSome_iff_exists] at h
        obtain ⟨tile, hfind⟩ := h
        have hmem := List.mem_of_find?_eq_some hfind
        have hpred := List.find?_some hfind
        refine ⟨tile, hmem, ?_⟩
        by_cases hsmall : (m.tileSpanSize (m.tileIndex tile)).w ≤ 1 ∧
            (m.tileSpanSize (m.tileIndex tile)).h ≤ 1
        · exfalso
          simp only [Bool.and_eq_true, decide_eq_true_eq] at hpred
          rw [if_pos (by simp [hsmall.1, hsmall.2])] at hpred
          cases hpred
        · have hcond : ¬((m.tileSpanSize (m.tileIndex tile)).w ≤ 1 &&
              (m.tileSpanSize (m.tileIndex tile)).h ≤ 1) = true := by
            simp only [Bool.and_eq_true, decide_eq_true_eq]
            exact hsmall
          rw [if_neg hcond] at hpred
          simp only [Bool.and_eq_true, decide_eq_true_eq, ge_iff_le] at hpred
          refine ⟨by omega, hpred.1.1.1, hpred.1.1.2, hpred.1.2, hpred.2⟩
    · rw [if_pos (by simp [hatlas])] at h
      cases h

/-- C10 witness: in a 4×4 atlas with a 2×2-cell tile at the origin, the
origin cell holds a tile and is not covered; exercised through the theorem. -/
theorem tileAt_isCellCoveredBySpan_exclusive_witness :
    (TilesetModel.tileAt
        ⟨⟨1, 1, 0, 0, 4, 4, true, 0, [⟨0, ⟨0, 0, 2, 2⟩, 0⟩], fun c r => c + r * 4⟩,
          [0], 0, false⟩ (some (0, 0))).isSome = true ∧
    TilesetModel.isCellCoveredBySpan
        ⟨⟨1, 1, 0, 0, 4, 4, true, 0, [⟨0, ⟨0, 0, 2, 2⟩, 0⟩], fun c r => c + r * 4⟩,
          [0], 0, false⟩ (some (0, 0)) = false :=
  ⟨by decide,
    (tileAt_isCellCoveredBySpan_exclusive
        ⟨⟨1, 1, 0, 0, 4, 4, true, 0, [⟨0, ⟨0, 0, 2, 2⟩, 0⟩], fun c r => c + r * 4⟩,
          [0], 0, false⟩ (some (0, 0))).1 (by decide)⟩

/-- C6 counterexample: a truncated drag payload — one complete 32-bit id (an
existing tile, id 7) followed by a single dangling byte — is not rejected:
`dropMimeData` returns true ("handled"), contradicting the claim that
truncated encoded data yields false; it even pushes a relocate command. -/
theorem dropMimeData_truncated_counterexample :
    (collectionModel.dropMimeData (some ⟨true, [0, 0, 0, 7, 9]⟩) DropAction.move none).1 = true ∧
    (collectionModel.dropMimeData (some ⟨true, [0, 0, 0, 7, 9]⟩) DropAction.move none).2 =
      [Cmd.relocateTiles [⟨7, ⟨0, 0, 16, 16⟩, 0⟩] 1] := by
  constructor <;> decide

/-- C6 (amended): null data, a non-move action, or a missing tiles mime
format make `dropMimeData` return false ("not handled") with no command
pushed; truncated encoded data, however, is not rejected: the complete
leading 32-bit ids are decoded, the call returns true, and no command is
pushed only when no decoded id matches an existing tile. -/
theorem dropMimeData_malformed (m : TilesetModel) (data : Option MimeData)
    (action : DropAction) (parent : Ix) :
    (data = none → m.dropMimeData data action parent = (false, [])) ∧
    (action ≠ DropAction.move → m.dropMimeData data action parent = (false, [])) ∧
    (∀ d, data = some d → d.hasTilesFormat = false →
      m.dropMimeData data action parent = (false, [])) ∧
    (∀ d, data = some d → d.hasTilesFormat = true → action = DropAction.move →
      (m.dropMimeData data action parent).1 = true ∧
      (((decodeTileIds d.bytes).filterMap (fun sourceId => m.tileset.findTile sourceId)).isEmpty
          = true →
        m.dropMimeData data action parent = (true, []))) := by
  refine ⟨?_, ?_, ?_, ?_⟩
  · intro h
    rw [h]
    rfl
  · intro h
    cases data with
    | none => rfl
    | some d => simp [TilesetModel.dropMimeData, h]
  · intro d hd hfmt
    rw [hd]
    by_cases ha : action = DropAction.move
    · simp [TilesetModel.dropMimeData, ha, hfmt]
    · simp [TilesetModel.dropMimeData, ha]
  · intro d hd hfmt ha
    rw [hd, ha]
    constructor
    · by_cases hempty :
        ((decodeTileIds d.bytes).filterMap (fun sourceId => m.tileset.findTile sourceId)).isEmpty
      · simp [TilesetModel.dropMimeData, hfmt, hempty]
      · simp [TilesetModel.dropMimeData, hfmt, hempty]
    · intro hempty
      simp [TilesetModel.dropMimeData, hfmt, hempty]

/-- C6 witness: a wrong-format payload is rejected without commands, and a
truncated payload with no complete id (2 bytes) is "handled" with no
command; both via the theorem. -/
theorem dropMimeData_malformed_witness :
    collectionModel.dropMimeData (some ⟨false, [0, 0, 0, 7]⟩) DropAction.move none = (false, []) ∧
    collectionModel.dropMimeData (some ⟨true, [0, 0]⟩) DropAction.move none = (true, []) :=
  ⟨(dropMimeData_malformed collectionModel (some ⟨false, [0, 0, 0, 7]⟩)
      DropAction.move none).2.2.1 _ rfl rfl,
    ((dropMimeData_malformed collectionModel (some ⟨true, [0, 0]⟩)
      DropAction.move none).2.2.2 _ rfl rfl rfl).2 (by decide)⟩

/-- A valid index is a `some` pair. -/
theorem Ix_isValid_iff (i : Ix) : i.isValid = true ↔ ∃ r c, i = some (r, c) := by
  cases i with
  | none => simp [Ix.isValid]
  | some p =>
    simp only [Ix.isValid, true_iff]
    exact ⟨p.1, p.2, rfl⟩

/-- A valid `tileIndex` result is within the model's bounds. -/
theorem tileIndex_valid (m : TilesetModel) (t : Tile) {p : Int × Int}
    (h : m.tileIndex t = some p) :
    0 ≤ p.1 ∧ p.1 < m.rowCount ∧ 0 ≤ p.2 ∧ p.2 < m.columnCount := by
  unfold TilesetModel.tileIndex at h
  by_cases hatlas : m.tileset.isAtlas
  · rw [if_pos hatlas] at h
    obtain ⟨hp, h1, h2, h3, h4⟩ := index_eq_some m h
    rw [hp]
    exact ⟨h1, h2, h3, h4⟩
  · rw [if_neg hatlas] at h
    by_cases hc : m.columnCount ≤ 0
    · rw [if_pos hc] at h
      cases h
    · rw [if_neg hc] at h
      obtain ⟨hp, h1, h2, h3, h4⟩ := index_eq_some m h
      rw [hp]
      exact ⟨h1, h2, h3, h4⟩

/-- One loop step of `tilesChanged` on an already-initialized accumulator
extends both corners componentwise (the `index` recheck succeeds because the
min/max of in-bounds positions stays in bounds). -/
theorem tilesChangedStep_some (m : TilesetModel) (mr mc MR MC r c : Int) (tile : Tile)
    (hi : m.tileIndex tile = some (r, c))
    (htl : 0 ≤ mr ∧ mr < m.rowCount ∧ 0 ≤ mc ∧ mc < m.columnCount)
    (hbr : 0 ≤ MR ∧ MR < m.rowCount ∧ 0 ≤ MC ∧ MC < m.columnCount) :
    m.tilesChangedStep (some (mr, mc), some (MR, MC)) tile =
      (some (min mr r, min mc c), some (max MR r, max MC c)) := by
  have hrc := tileIndex_valid m tile hi
  unfold TilesetModel.tilesChangedStep
  rw [hi]
  simp only [Ix.isValid, Ix.row, Ix.col, Bool.not_true, Bool.false_eq_true, if_false]
  have htl' : (if r < mr || c < mc then
      m.index (min mr r) (min mc c) else some (mr, mc)) = some (min mr r, min mc c) := by
    by_cases hcond : r < mr ∨ c < mc
    · rw [if_pos (by simpa using hcond)]
      exact index_eq_some_of_bounds m
        ⟨le_min htl.1 hrc.1, lt_of_le_of_lt (min_le_left _ _) htl.2.1,
         le_min htl.2.2.1 hrc.2.2.1, lt_of_le_of_lt (min_le_left _ _) htl.2.2.2⟩
    · push_neg at hcond
      rw [if_neg (by simpa using (not_or.mpr ⟨not_lt.mpr hcond.1, not_lt.mpr hcond.2⟩ :
            ¬(r < mr ∨ c < mc)))]
      rw [min_eq_left hcond.1, min_eq_left hcond.2]
  have hbr' : (if r > MR || c > MC then
      m.index (max MR r) (max MC c) else some (MR, MC)) = some (max MR r, max MC c) := by
    by_cases hcond : r > MR ∨ c > MC
    · rw [if_pos (by simpa using hcond)]
      exact index_eq_some_of_bounds m
        ⟨le_max_of_le_left hbr.1, max_lt hbr.2.1 hrc.2.1,
         le_max_of_le_left hbr.2.2.1, max_lt hbr.2.2.2 hrc.2.2.2⟩
    · push_neg at hcond
      rw [if_neg (by simpa using (not_or.mpr ⟨not_lt.mpr hcond.1, not_lt.mpr hcond.2⟩ :
            ¬(MR < r ∨ MC < c)))]
      rw [max_eq_left hcond.1, max_eq_left hcond.2]
  rw [htl', hbr']

/-- The `tilesChanged` fold starting from an initialized accumulator computes
the componentwise min/max of all processed positions. -/
theorem tilesChanged_foldl (m : TilesetModel) (l : List Tile) :
    ∀ (mr mc MR MC : Int),
    (0 ≤ mr ∧ mr < m.rowCount ∧ 0 ≤ mc ∧ mc < m.columnCount) →
    (0 ≤ MR ∧ MR < m.rowCount ∧ 0 ≤ MC ∧ MC < m.columnCount) →
    (∀ t ∈ l, (m.tileIndex t).isValid = true) →
    l.foldl m.tilesChangedStep (some (mr, mc), some (MR, MC)) =
      (some (l.foldl (fun a t => min a (m.tileIndex t).row) mr,
             l.foldl (fun a t => min a (m.tileIndex t).col) mc),
       some (l.foldl (fun a t => max a (m.tileIndex t).row) MR,
             l.foldl (fun a t => max a (m.tileIndex t).col) MC)) := by
  induction l with
  | nil => intro mr mc MR MC _ _ _; rfl
  | cons t l ih =>
    intro mr mc MR MC htl hbr hval
    obtain ⟨r, c, hi⟩ := (Ix_isValid_iff _).mp (hval t (List.mem_cons_self _ _))
    have hrc := tileIndex_valid m t hi
    simp only [List.foldl_cons]
    rw [tilesChangedStep_some m mr mc MR MC r c t hi htl hbr]
    rw [ih (min mr r) (min mc c) (max MR r) (max MC c)
      ⟨le_min htl.1 hrc.1, lt_of_le_of_lt (min_le_left _ _) htl.2.1,
       le_min htl.2.2.1 hrc.2.2.1, lt_of_le_of_lt (min_le_left _ _) htl.2.2.2⟩
      ⟨le_max_of_le_left hbr.1, max_lt hbr.2.1 hrc.2.1,
       le_max_of_le_left hbr.2.2.1, max_lt hbr.2.2.2 hrc.2.2.2⟩
      (fun u hu => hval u (List.mem_cons_of_mem _ hu))]
    rw [hi]
    simp only [Ix.row, Ix.col]

/-- C7: for a non-empty batch of tiles of the model's tileset whose grid
positions are all valid, `tilesChanged` emits exactly one notification whose
corners are the componentwise min and max of the positions of all changed
tiles; and `tileChanged` emits a notification covering exactly the tile's
one cell. -/
theorem tilesChanged_bounding (m : TilesetModel) (t0 : Tile) (rest : List Tile)
    (hkey : t0.tilesetKey = m.tileset.key)
    (hval : ∀ t ∈ t0 :: rest, (m.tileIndex t).isValid = true) :
    m.tilesChanged (t0 :: rest) =
      some (some (rest.foldl (fun a t => min a (m.tileIndex t).row) (m.tileIndex t0).row,
                  rest.foldl (fun a t => min a (m.tileIndex t).col) (m.tileIndex t0).col),
            some (rest.foldl (fun a t => max a (m.tileIndex t).row) (m.tileIndex t0).row,
                  rest.foldl (fun a t => max a (m.tileIndex t).col) (m.tileIndex t0).col)) ∧
    (∀ (t : Tile) (r c : Int), m.tileIndex t = some (r, c) →
      m.tileChanged t = (some (r, c), some (r, c))) := by
  constructor
  · obtain ⟨r0, c0, hi0⟩ := (Ix_isValid_iff _).mp (hval t0 (List.mem_cons_self _ _))
    have hb0 := tileIndex_valid m t0 hi0
    simp only [TilesetModel.tilesChanged]
    rw [if_neg (show ¬(t0.tilesetKey ≠ m.tileset.key) by simp [hkey])]
    have hstep0 : m.tilesChangedStep (none, none) t0 = (some (r0, c0), some (r0, c0)) := by
      unfold TilesetModel.tilesChangedStep
      rw [hi0]
      simp [Ix.isValid]
    have hfold : (t0 :: rest).foldl m.tilesChangedStep (none, none) =
        (some (rest.foldl (fun a t => min a (m.tileIndex t).row) r0,
               rest.foldl (fun a t => min a (m.tileIndex t).col) c0),
         some (rest.foldl (fun a t => max a (m.tileIndex t).row) r0,
               rest.foldl (fun a t => max a (m.tileIndex t).col) c0)) := by
      simp only [List.foldl_cons, hstep0]
      exact tilesChanged_foldl m rest r0 c0 r0 c0
        ⟨hb0.1, hb0.2.1, hb0.2.2.1, hb0.2.2.2⟩ ⟨hb0.1, hb0.2.1, hb0.2.2.1, hb0.2.2.2⟩
        (fun u hu => hval u (List.mem_cons_of_mem _ hu))
    rw [hfold]
    rw [hi0]
    simp [Ix.isValid, Ix.row, Ix.col]
  · intro t r c h
    unfold TilesetModel.tileChanged
    rw [h]

/-- C7 witness: for the collection model with tiles at linear indices 0 and 1
(grid cells (0,0) and (0,1)), the batch notification covers exactly the
bounding rectangle (0,0)–(0,1), exercised through the theorem. -/
theorem tilesChanged_bounding_witness :
    collectionModel.tilesChanged [⟨7, ⟨0, 0, 16, 16⟩, 0⟩, ⟨12, ⟨0, 0, 16, 16⟩, 0⟩] =
      some (some ([(⟨12, ⟨0, 0, 16, 16⟩, 0⟩ : Tile)].foldl
                    (fun a t => min a (collectionModel.tileIndex t).row)
                    (collectionModel.tileIndex ⟨7, ⟨0, 0, 16, 16⟩, 0⟩).row,
                  [(⟨12, ⟨0, 0, 16, 16⟩, 0⟩ : Tile)].foldl
                    (fun a t => min a (collectionModel.tileIndex t).col)
                    (collectionModel.tileIndex ⟨7, ⟨0, 0, 16, 16⟩, 0⟩).col),
            some ([(⟨12, ⟨0, 0, 16, 16⟩, 0⟩ : Tile)].foldl
                    (fun a t => max a (collectionModel.tileIndex t).row)
                    (collectionModel.tileIndex ⟨7, ⟨0, 0, 16, 16⟩, 0⟩).row,
                  [(⟨12, ⟨0, 0, 16, 16⟩, 0⟩ : Tile)].foldl
                    (fun a t => max a (collectionModel.tileIndex t).col)
                    (collectionModel.tileIndex ⟨7, ⟨0, 0, 16, 16⟩, 0⟩).col)) ∧
    collectionModel.tileChanged ⟨12, ⟨0, 0, 16, 16⟩, 0⟩ = (some (0, 1), some (0, 1)) :=
  ⟨(tilesChanged_bounding collectionModel ⟨7, ⟨0, 0, 16, 16⟩, 0⟩ [⟨12, ⟨0, 0, 16, 16⟩, 0⟩]
      rfl (by decide)).1,
    (tilesChanged_bounding collectionModel ⟨7, ⟨0, 0, 16, 16⟩, 0⟩ [⟨12, ⟨0, 0, 16, 16⟩, 0⟩]
      rfl (by decide)).2 ⟨12, ⟨0, 0, 16, 16⟩, 0⟩ 0 1 (by decide)⟩

/-- Qt point containment for rectangles of nonnegative size is plain
half-open interval membership (the normalization branch is not taken). -/
theorem containsPt_iff (r : Rect) (hw : 0 ≤ r.w) (hh : 0 ≤ r.h) (px py : Int) :
    r.containsPt px py = true ↔
      r.x ≤ px ∧ px < r.x + r.w ∧ r.y ≤ py ∧ py < r.y + r.h := by
  simp only [Rect.containsPt, Bool.or_eq_true, decide_eq_true_eq]
  split_ifs <;> simp_all <;> omega

/-- A rectangle of nonnegative size contains no point when its width or
height is zero or less. -/
theorem containsPt_false_of_empty (r : Rect) (hw : 0 ≤ r.w) (hh : 0 ≤ r.h)
    (hempty : r.w = 0 ∨ r.h = 0) (px py : Int) :
    r.containsPt px py = false := by
  rw [← Bool.not_eq_true, containsPt_iff r hw hh px py]
  omega

/-- `isEmpty` is non-positivity of a dimension. -/
theorem isEmpty_iff (r : Rect) : r.isEmpty = true ↔ r.w ≤ 0 ∨ r.h ≤ 0 := by
  simp only [Rect.isEmpty, Bool.or_eq_true, decide_eq_true_eq]
  omega

/-- Atlas models report the tileset's native row count. -/
theorem rowCount_atlas (m : TilesetModel) (h : m.tileset.isAtlas = true) :
    m.rowCount = m.tileset.rowCount := by
  unfold TilesetModel.rowCount
  rw [if_pos h]

/-- Atlas models report the tileset's native column count. -/
theorem columnCount_atlas (m : TilesetModel) (h : m.tileset.isAtlas = true) :
    m.columnCount = m.tileset.columnCount := by
  unfold TilesetModel.columnCount
  rw [if_pos h]

/-- `applyCmds` distributes over command-list concatenation. -/
theorem applyCmds_append (ts : Tileset) (l1 l2 : List Cmd) :
    applyCmds ts (l1 ++ l2) = applyCmds (applyCmds ts l1) l2 :=
  List.foldl_append _ _ _ _

/-- Applying the conditional `RemoveTiles` batch over the tiles collected by
a filter removes exactly the tiles satisfying the filter. -/
theorem applyRemoveFilter (ts : Tileset) (p : Tile → Bool) :
    (applyCmds ts
      (if (ts.tiles.filter p).isEmpty then [] else [Cmd.removeTiles (ts.tiles.filter p)])).tiles =
      ts.tiles.filter (fun t => !p t) := by
  by_cases hemp : (ts.tiles.filter p).isEmpty = true
  · rw [if_pos hemp]
    have hnil : ts.tiles.filter p = [] := List.isEmpty_iff.mp hemp
    have hall : ∀ t ∈ ts.tiles, (!p t) = true := by
      intro t ht
      have := List.filter_eq_nil_iff.mp hnil t ht
      simp [this]
    show ts.tiles = _
    exact (List.filter_eq_self.mpr hall).symm
  · rw [if_neg hemp]
    show (applyCmd ts (Cmd.removeTiles (ts.tiles.filter p))).tiles = _
    simp only [applyCmd]
    apply List.filter_congr
    intro t ht
    have hmem : (t ∈ ts.tiles.filter p) ↔ p t = true := by
      simp [List.mem_filter, ht]
    by_cases hp : p t = true
    · simp [hp, hmem]
    · simp [hp, hmem]

/-- Shared analysis of `mergeSpan` on an atlas model: (a) every tile other
than the one addressed by the top-left generated id survives iff the merge
rectangle does not contain its image-rect origin; (b) exactly one tile of
the result carries the full merge rectangle; (c) that tile has the top-left
generated id. -/
theorem mergeSpan_result (m : TilesetModel) (minRow maxRow minCol maxCol : Int)
    (hatlas : m.tileset.isAtlas = true)
    (htw : 1 ≤ m.tileset.tileWidth) (hth : 1 ≤ m.tileset.tileHeight)
    (hrmm : minRow ≤ maxRow) (hcmm : minCol ≤ maxCol)
    (hinr : 0 ≤ minRow ∧ minRow < m.tileset.rowCount)
    (hinc : 0 ≤ minCol ∧ minCol < m.tileset.columnCount)
    (hids : (m.tileset.tiles.map Tile.id).Nodup) :
    (∀ u ∈ m.tileset.tiles, u.id ≠ m.tileset.generateTileId minCol minRow →
      (u ∈ (applyCmds m.tileset (TilesetView.mergeSpan m minRow maxRow minCol maxCol)).tiles ↔
        (TilesetView.mergeRect m.tileset minRow maxRow minCol maxCol).containsPt
          u.imageRect.x u.imageRect.y = false)) ∧
    (applyCmds m.tileset (TilesetView.mergeSpan m minRow maxRow minCol maxCol)).tiles.countP
      (fun t => t.imageRect == TilesetView.mergeRect m.tileset minRow maxRow minCol maxCol) = 1 ∧
    (∃ t ∈ (applyCmds m.tileset (TilesetView.mergeSpan m minRow maxRow minCol maxCol)).tiles,
      t.id = m.tileset.generateTileId minCol minRow ∧
      t.imageRect = TilesetView.mergeRect m.tileset minRow maxRow minCol maxCol) := by
  have hrows := rowCount_atlas m hatlas
  have hcols := columnCount_atlas m hatlas
  set R := TilesetView.mergeRect m.tileset minRow maxRow minCol maxCol with hR
  set gid := m.tileset.generateTileId minCol minRow with hgid
  have hRw : 1 ≤ R.w := by
    rw [hR]
    show (1 : Int) ≤ (maxCol - minCol + 1) * m.tileset.tileWidth
    nlinarith
  have hRh : 1 ≤ R.h := by
    rw [hR]
    show (1 : Int) ≤ (maxRow - minRow + 1) * m.tileset.tileHeight
    nlinarith
  have hRxy : R.containsPt R.x R.y = true :=
    (containsPt_iff R (by omega) (by omega) R.x R.y).mpr ⟨le_refl _, by omega, le_refl _, by omega⟩
  have hAt : m.tileAt (m.index minRow minCol) = m.tileset.findTile gid := by
    rw [index_eq_some_of_bounds m ⟨hinr.1, by omega, hinc.1, by omega⟩]
    simp [TilesetModel.tileAt, hatlas]
  cases hfind : m.tileset.findTile gid with
  | none =>
    have hnone : ∀ u ∈ m.tileset.tiles, u.id ≠ gid := by
      intro u hu
      have hfind' : m.tileset.tiles.find? (fun t => t.id == gid) = none := hfind
      have := List.find?_eq_none.mp hfind' u hu
      simpa using this
    have hts' :
        (applyCmds m.tileset (TilesetView.mergeSpan m minRow maxRow minCol maxCol)).tiles =
          (m.tileset.tiles.filter
            (fun t => !(R.containsPt t.imageRect.x t.imageRect.y))) ++
            [⟨gid, R, m.tileset.key⟩] := by
      simp only [TilesetView.mergeSpan, hAt, hfind, Bool.true_and, ← hR, ← hgid]
      rw [applyCmds_append]
      show (applyCmd (applyCmds m.tileset _) (Cmd.addTiles _)).tiles = _
      simp only [applyCmd]
      rw [applyRemoveFilter]
    refine ⟨?_, ?_, ?_⟩
    · intro u hu huid
      rw [hts']
      have hun : u ≠ (⟨gid, R, m.tileset.key⟩ : Tile) := by
        intro h
        exact huid (by rw [h])
      constructor
      · intro h
        rcases List.mem_append.mp h with h1 | h2
        · have := (List.mem_filter.mp h1).2
          simpa using this
        · exact absurd (List.mem_singleton.mp h2) hun
      · intro h
        exact List.mem_append.mpr (Or.inl (List.mem_filter.mpr ⟨hu, by simp [h]⟩))
    · rw [hts', List.countP_append]
      have hz : (m.tileset.tiles.filter
          (fun t => !(R.containsPt t.imageRect.x t.imageRect.y))).countP
          (fun t => t.imageRect == R) = 0 := by
        rw [List.countP_eq_zero]
        intro v hv
        have hvf := List.mem_filter.mp hv
        simp only [beq_iff_eq]
        intro hvR
        have : R.containsPt v.imageRect.x v.imageRect.y = true := by
          rw [hvR]
          exact hRxy
        simp [this] at hvf
      rw [hz]
      simp
    · refine ⟨⟨gid, R, m.tileset.key⟩, ?_, rfl, rfl⟩
      rw [hts']
      exact List.mem_append.mpr (Or.inr (List.mem_singleton.mpr rfl))
  | some tt =>
    have hfind' : m.tileset.tiles.find? (fun t => t.id == gid) = some tt := hfind
    have htt_mem : tt ∈ m.tileset.tiles := List.mem_of_find?_eq_some hfind'
    have htt_id : tt.id = gid := by
      have := List.find?_some hfind'
      simpa using this
    have hnodup : m.tileset.tiles.Nodup := List.Nodup.of_map _ hids
    have hts' :
        (applyCmds m.tileset (TilesetView.mergeSpan m minRow maxRow minCol maxCol)).tiles =
          (m.tileset.tiles.filter
            (fun t => !(decide (t ≠ tt) && R.containsPt t.imageRect.x t.imageRect.y))).map
            (fun t => if t = tt then { t with imageRect := R } else t) := by
      simp only [TilesetView.mergeSpan, hAt, hfind, ← hR, ← hgid]
      rw [applyCmds_append]
      show (applyCmd (applyCmds m.tileset _) (Cmd.changeTileImageRect tt R)).tiles = _
      simp only [applyCmd]
      rw [applyRemoveFilter]
    have htt_filter : tt ∈ m.tileset.tiles.filter
        (fun t => !(decide (t ≠ tt) && R.containsPt t.imageRect.x t.imageRect.y)) :=
      List.mem_filter.mpr ⟨htt_mem, by simp⟩
    refine ⟨?_, ?_, ?_⟩
    · intro u hu huid
      rw [hts']
      have hut : u ≠ tt := fun h => huid (h ▸ htt_id)
      constructor
      · intro h
        rcases List.mem_map.mp h with ⟨v, hv, hvu⟩
        by_cases hvt : v = tt
        · exfalso
          rw [if_pos hvt] at hvu
          subst hvt
          apply huid
          rw [← hvu]
          exact htt_id
        · rw [if_neg hvt] at hvu
          subst hvu
          have := (List.mem_filter.mp hv).2
          simpa [hvt] using this
      · intro h
        apply List.mem_map.mpr
        refine ⟨u, List.mem_filter.mpr ⟨hu, by simp [hut, h]⟩, by rw [if_neg hut]⟩
    · rw [hts', List.countP_map]
      have hcong : (m.tileset.tiles.filter
          (fun t => !(decide (t ≠ tt) && R.containsPt t.imageRect.x t.imageRect.y))).countP
          ((fun t => t.imageRect == R) ∘ (fun t => if t = tt then { t with imageRect := R } else t)) =
          (m.tileset.tiles.filter
          (fun t => !(decide (t ≠ tt) && R.containsPt t.imageRect.x t.imageRect.y))).countP
          (· == tt) := by
        apply List.countP_congr
        intro v hv
        have hvf := List.mem_filter.mp hv
        by_cases hvt : v = tt
        · simp [Function.comp, hvt]
        · simp only [Function.comp, if_neg hvt, beq_iff_eq]
          constructor
          · intro hvR
            exfalso
            have : R.containsPt v.imageRect.x v.imageRect.y = true := by
              rw [hvR]
              exact hRxy
            simp [hvt, this] at hvf
          · intro h
            exact absurd h hvt
      rw [hcong]
      rw [← List.count_eq_countP]
      exact List.count_eq_one_of_mem (List.Nodup.filter _ hnodup) htt_filter
    · refine ⟨{ tt with imageRect := R }, ?_, htt_id, rfl⟩
      rw [hts']
      exact List.mem_map.mpr ⟨tt, htt_filter, by rw [if_pos rfl]⟩

/-- C2: `mergeSpan` on an atlas model removes exactly the tiles — other than
the tile addressed by the top-left cell's generated id — whose image-rect
origin lies inside the merged pixel rectangle, and afterwards exactly one
tile covers the whole merged rectangle: the resized target or a new tile,
in either case carrying the id generated from (minCol, minRow). -/
theorem mergeSpan_removes_and_covers (m : TilesetModel) (minRow maxRow minCol maxCol : Int)
    (hatlas : m.tileset.isAtlas = true)
    (htw : 1 ≤ m.tileset.tileWidth) (hth : 1 ≤ m.tileset.tileHeight)
    (hrmm : minRow ≤ maxRow) (hcmm : minCol ≤ maxCol)
    (hinr : 0 ≤ minRow ∧ minRow < m.tileset.rowCount)
    (hinc : 0 ≤ minCol ∧ minCol < m.tileset.columnCount)
    (hids : (m.tileset.tiles.map Tile.id).Nodup) :
    (∀ u ∈ m.tileset.tiles, u.id ≠ m.tileset.generateTileId minCol minRow →
      (u ∈ (applyCmds m.tileset (TilesetView.mergeSpan m minRow maxRow minCol maxCol)).tiles ↔
        (TilesetView.mergeRect m.tileset minRow maxRow minCol maxCol).containsPt
          u.imageRect.x u.imageRect.y = false)) ∧
    (applyCmds m.tileset (TilesetView.mergeSpan m minRow maxRow minCol maxCol)).tiles.countP
      (fun t => t.imageRect == TilesetView.mergeRect m.tileset minRow maxRow minCol maxCol) = 1 ∧
    (∃ t ∈ (applyCmds m.tileset (TilesetView.mergeSpan m minRow maxRow minCol maxCol)).tiles,
      t.id = m.tileset.generateTileId minCol minRow ∧
      t.imageRect = TilesetView.mergeRect m.tileset minRow maxRow minCol maxCol) :=
  mergeSpan_result m minRow maxRow minCol maxCol hatlas htw hth hrmm hcmm hinr hinc hids

/-- C2 witness: merging rows 2–2, cols 3–4 of the two-tile 8×8 atlas fixture
(the target at cell (3,2) and a removable tile at cell (4,2)). -/
theorem mergeSpan_removes_and_covers_witness :
    ((2 : Int) ≤ 2 ∧ (3 : Int) ≤ 4 ∧ (mergeModel.tileset.tiles.map Tile.id).Nodup) ∧
    (applyCmds mergeModel.tileset (TilesetView.mergeSpan mergeModel 2 2 3 4)).tiles.countP
      (fun t => t.imageRect == TilesetView.mergeRect mergeModel.tileset 2 2 3 4) = 1 :=
  ⟨⟨le_refl _, by decide, by decide⟩,
    (mergeSpan_removes_and_covers mergeModel 2 2 3 4 rfl (by decide) (by decide) (by decide)
      (by decide) (by decide) (by decide) (by decide)).2.1⟩

/-- C9: the merged pixel rectangle is computed in exact integer arithmetic as
(margin + minCol·(tw+sp), margin + minRow·(th+sp), width·tw, height·th) with
width = maxCol−minCol+1 and height = maxRow−minRow+1; in particular
`mergeSpan(2,3,3,6)` produces exactly one tile whose image rectangle is
(margin + 3·(tw+sp), margin + 2·(th+sp), 4·tw, 2·th), with the id generated
from (3, 2). -/
theorem mergeSpan_rect_formula (m : TilesetModel)
    (hatlas : m.tileset.isAtlas = true)
    (htw : 1 ≤ m.tileset.tileWidth) (hth : 1 ≤ m.tileset.tileHeight)
    (hinr : 3 < m.tileset.rowCount) (hinc : 6 < m.tileset.columnCount)
    (hids : (m.tileset.tiles.map Tile.id).Nodup) :
    (∀ (ts : Tileset) (minRow maxRow minCol maxCol : Int),
      TilesetView.mergeRect ts minRow maxRow minCol maxCol =
        ⟨ts.margin + minCol * (ts.tileWidth + ts.tileSpacing),
         ts.margin + minRow * (ts.tileHeight + ts.tileSpacing),
         (maxCol - minCol + 1) * ts.tileWidth,
         (maxRow - minRow + 1) * ts.tileHeight⟩) ∧
    (applyCmds m.tileset (TilesetView.mergeSpan m 2 3 3 6)).tiles.countP
      (fun t => t.imageRect ==
        (⟨m.tileset.margin + 3 * (m.tileset.tileWidth + m.tileset.tileSpacing),
          m.tileset.margin + 2 * (m.tileset.tileHeight + m.tileset.tileSpacing),
          4 * m.tileset.tileWidth, 2 * m.tileset.tileHeight⟩ : Rect)) = 1 ∧
    (∃ t ∈ (applyCmds m.tileset (TilesetView.mergeSpan m 2 3 3 6)).tiles,
      t.id = m.tileset.generateTileId 3 2 ∧
      t.imageRect =
        ⟨m.tileset.margin + 3 * (m.tileset.tileWidth + m.tileset.tileSpacing),
         m.tileset.margin + 2 * (m.tileset.tileHeight + m.tileset.tileSpacing),
         4 * m.tileset.tileWidth, 2 * m.tileset.tileHeight⟩) := by
  have hR9 : TilesetView.mergeRect m.tileset 2 3 3 6 =
      ⟨m.tileset.margin + 3 * (m.tileset.tileWidth + m.tileset.tileSpacing),
       m.tileset.margin + 2 * (m.tileset.tileHeight + m.tileset.tileSpacing),
       4 * m.tileset.tileWidth, 2 * m.tileset.tileHeight⟩ := by
    simp only [TilesetView.mergeRect]
    norm_num
  have h := mergeSpan_result m 2 3 3 6 hatlas htw hth (by omega) (by omega)
    ⟨by omega, by omega⟩ ⟨by omega, by omega⟩ hids
  refine ⟨fun ts minRow maxRow minCol maxCol => rfl, ?_, ?_⟩
  · rw [← hR9]
    exact h.2.1
  · rw [← hR9]
    exact h.2.2

/-- C9 witness: the 8×8 atlas fixture with tw=3, th=2, margin=1, spacing=1;
`mergeSpan(2,3,3,6)` leaves exactly one tile with the example rectangle. -/
theorem mergeSpan_rect_formula_witness :
    ((3 : Int) < mergeModel.tileset.rowCount ∧ (6 : Int) < mergeModel.tileset.columnCount) ∧
    (applyCmds mergeModel.tileset (TilesetView.mergeSpan mergeModel 2 3 3 6)).tiles.countP
      (fun t => t.imageRect ==
        (⟨mergeModel.tileset.margin + 3 * (mergeModel.tileset.tileWidth + mergeModel.tileset.tileSpacing),
          mergeModel.tileset.margin + 2 * (mergeModel.tileset.tileHeight + mergeModel.tileset.tileSpacing),
          4 * mergeModel.tileset.tileWidth, 2 * mergeModel.tileset.tileHeight⟩ : Rect)) = 1 :=
  ⟨⟨by decide, by decide⟩,
    (mergeSpan_rect_formula mergeModel rfl (by decide) (by decide) (by decide) (by decide)
      (by decide)).2.1⟩

/-- The four-way minimum equals its first element iff that element is a
lower bound of the others. -/
theorem min4_eq_a (a b c d : ℚ) :
    min (min (min a b) c) d = a ↔ a ≤ b ∧ a ≤ c ∧ a ≤ d := by
  constructor
  · intro h
    have hb : min (min (min a b) c) d ≤ b :=
      le_trans (min_le_left _ _) (le_trans (min_le_left _ _) (min_le_right _ _))
    have hc : min (min (min a b) c) d ≤ c := le_trans (min_le_left _ _) (min_le_right _ _)
    have hd : min (min (min a b) c) d ≤ d := min_le_right _ _
    rw [h] at hb hc hd
    exact ⟨hb, hc, hd⟩
  · intro ⟨hb, hc, hd⟩
    rw [min_eq_left hb, min_eq_left hc, min_eq_left hd]

/-- The four-way minimum equals its second element iff that element is a
lower bound of the others. -/
theorem min4_eq_b (a b c d : ℚ) :
    min (min (min a b) c) d = b ↔ b ≤ a ∧ b ≤ c ∧ b ≤ d := by
  constructor
  · intro h
    have ha : min (min (min a b) c) d ≤ a :=
      le_trans (min_le_left _ _) (le_trans (min_le_left _ _) (min_le_left _ _))
    have hc : min (min (min a b) c) d ≤ c := le_trans (min_le_left _ _) (min_le_right _ _)
    have hd : min (min (min a b) c) d ≤ d := min_le_right _ _
    rw [h] at ha hc hd
    exact ⟨ha, hc, hd⟩
  · intro ⟨ha, hc, hd⟩
    rw [min_eq_right ha, min_eq_left hc, min_eq_left hd]

/-- The four-way minimum equals its third element iff that element is a
lower bound of the others. -/
theorem min4_eq_c (a b c d : ℚ) :
    min (min (min a b) c) d = c ↔ c ≤ a ∧ c ≤ b ∧ c ≤ d := by
  constructor
  · intro h
    have ha : min (min (min a b) c) d ≤ a :=
      le_trans (min_le_left _ _) (le_trans (min_le_left _ _) (min_le_left _ _))
    have hb : min (min (min a b) c) d ≤ b :=
      le_trans (min_le_left _ _) (le_trans (min_le_left _ _) (min_le_right _ _))
    have hd : min (min (min a b) c) d ≤ d := min_le_right _ _
    rw [h] at ha hb hd
    exact ⟨ha, hb, hd⟩
  · intro ⟨ha, hb, hd⟩
    rw [min_eq_right (le_min ha hb), min_eq_left hd]

/-- C8: `splitRects` — the edge-selection core of `splitSpan` — picks the
edge with minimal normalized distance, ties broken toward the first of
left/right/top/bottom in evaluation order, and the resulting
(kept, split-off) grid rectangles partition the span's cells. -/
theorem splitSpan_edge_selection (baseX baseY spanW spanH relativeRow relativeCol : Int)
    (h1 : 0 ≤ relativeCol) (h2 : relativeCol < spanW)
    (h3 : 0 ≤ relativeRow) (h4 : relativeRow < spanH) :
    (TilesetView.splitRects baseX baseY spanW spanH relativeRow relativeCol =
      if (relativeCol : ℚ) / (spanW : ℚ) ≤ 1 - (relativeCol : ℚ) / (spanW : ℚ) ∧
          (relativeCol : ℚ) / (spanW : ℚ) ≤ (relativeRow : ℚ) / (spanH : ℚ) ∧
          (relativeCol : ℚ) / (spanW : ℚ) ≤ 1 - (relativeRow : ℚ) / (spanH : ℚ) then
        (⟨baseX + relativeCol + 1, baseY, spanW - relativeCol - 1, spanH⟩,
         ⟨baseX, baseY, relativeCol + 1, spanH⟩)
      else if 1 - (relativeCol : ℚ) / (spanW : ℚ) ≤ (relativeCol : ℚ) / (spanW : ℚ) ∧
          1 - (relativeCol : ℚ) / (spanW : ℚ) ≤ (relativeRow : ℚ) / (spanH : ℚ) ∧
          1 - (relativeCol : ℚ) / (spanW : ℚ) ≤ 1 - (relativeRow : ℚ) / (spanH : ℚ) then
        (⟨baseX, baseY, relativeCol, spanH⟩,
         ⟨baseX + relativeCol, baseY, spanW - relativeCol, spanH⟩)
      else if (relativeRow : ℚ) / (spanH : ℚ) ≤ (relativeCol : ℚ) / (spanW : ℚ) ∧
          (relativeRow : ℚ) / (spanH : ℚ) ≤ 1 - (relativeCol : ℚ) / (spanW : ℚ) ∧
          (relativeRow : ℚ) / (spanH : ℚ) ≤ 1 - (relativeRow : ℚ) / (spanH : ℚ) then
        (⟨baseX, baseY + relativeRow + 1, spanW, spanH - relativeRow - 1⟩,
         ⟨baseX, baseY, spanW, relativeRow + 1⟩)
      else
        (⟨baseX, baseY, spanW, relativeRow⟩,
         ⟨baseX, baseY + relativeRow, spanW, spanH - relativeRow⟩)) ∧
    (∀ x y : Int,
      cellIn ⟨baseX, baseY, spanW, spanH⟩ x y ↔
        (cellIn (TilesetView.splitRects baseX baseY spanW spanH relativeRow relativeCol).1 x y ∨
         cellIn (TilesetView.splitRects baseX baseY spanW spanH relativeRow relativeCol).2 x y)) ∧
    (∀ x y : Int,
      ¬(cellIn (TilesetView.splitRects baseX baseY spanW spanH relativeRow relativeCol).1 x y ∧
        cellIn (TilesetView.splitRects baseX baseY spanW spanH relativeRow relativeCol).2 x y)) := by
  have hEq : TilesetView.splitRects baseX baseY spanW spanH relativeRow relativeCol =
      if (relativeCol : ℚ) / (spanW : ℚ) ≤ 1 - (relativeCol : ℚ) / (spanW : ℚ) ∧
          (relativeCol : ℚ) / (spanW : ℚ) ≤ (relativeRow : ℚ) / (spanH : ℚ) ∧
          (relativeCol : ℚ) / (spanW : ℚ) ≤ 1 - (relativeRow : ℚ) / (spanH : ℚ) then
        (⟨baseX + relativeCol + 1, baseY, spanW - relativeCol - 1, spanH⟩,
         ⟨baseX, baseY, relativeCol + 1, spanH⟩)
      else if 1 - (relativeCol : ℚ) / (spanW : ℚ) ≤ (relativeCol : ℚ) / (spanW : ℚ) ∧
          1 - (relativeCol : ℚ) / (spanW : ℚ) ≤ (relativeRow : ℚ) / (spanH : ℚ) ∧
          1 - (relativeCol : ℚ) / (spanW : ℚ) ≤ 1 - (relativeRow : ℚ) / (spanH : ℚ) then
        (⟨baseX, baseY, relativeCol, spanH⟩,
         ⟨baseX + relativeCol, baseY, spanW - relativeCol, spanH⟩)
      else if (relativeRow : ℚ) / (spanH : ℚ) ≤ (relativeCol : ℚ) / (spanW : ℚ) ∧
          (relativeRow : ℚ) / (spanH : ℚ) ≤ 1 - (relativeCol : ℚ) / (spanW : ℚ) ∧
          (relativeRow : ℚ) / (spanH : ℚ) ≤ 1 - (relativeRow : ℚ) / (spanH : ℚ) then
        (⟨baseX, baseY + relativeRow + 1, spanW, spanH - relativeRow - 1⟩,
         ⟨baseX, baseY, spanW, relativeRow + 1⟩)
      else
        (⟨baseX, baseY, spanW, relativeRow⟩,
         ⟨baseX, baseY + relativeRow, spanW, spanH - relativeRow⟩) := by
    simp only [TilesetView.splitRects]
    exact if_congr (min4_eq_a _ _ _ _) rfl
      (if_congr (min4_eq_b _ _ _ _) rfl
        (if_congr (min4_eq_c _ _ _ _) rfl rfl))
  refine ⟨hEq, ?_, ?_⟩
  · intro x y
    rw [hEq]
    split_ifs <;> simp only [cellIn] <;> constructor <;> intro h <;> omega
  · intro x y
    rw [hEq]
    split_ifs <;> simp only [cellIn] <;> intro h <;> omega

/-- C8 witness: a click at relative cell (1, 3) in a 4×3 span at base (5, 6)
exercises the edge selection and the cell partition. -/
theorem splitSpan_edge_selection_witness :
    ((0 : Int) ≤ 3 ∧ (3 : Int) < 4 ∧ (0 : Int) ≤ 1 ∧ (1 : Int) < 3) ∧
    (∀ x y : Int,
      cellIn ⟨6, 5, 4, 3⟩ x y ↔
        (cellIn (TilesetView.splitRects 6 5 4 3 1 3).1 x y ∨
         cellIn (TilesetView.splitRects 6 5 4 3 1 3).2 x y)) :=
  ⟨⟨by decide, by decide, by decide, by decide⟩,
    (splitSpan_edge_selection 6 5 4 3 1 3 (by decide) (by decide) (by decide) (by decide)).2.1⟩

/-- A `filterMap` that never drops is a `map`. -/
theorem filterMap_eq_map_of_forall {α β : Type} (l : List α) (f : α → Option β) (g : α → β)
    (h : ∀ a ∈ l, f a = some (g a)) : l.filterMap f = l.map g := by
  induction l with
  | nil => rfl
  | cons a l ih =>
    rw [List.filterMap_cons, h a (List.mem_cons_self _ _), List.map_cons,
      ih (fun b hb => h b (List.mem_cons_of_mem _ hb))]

/-- `splitCells` of a one-column rectangle lists its cells top to bottom. -/
theorem splitCells_one_col (x y h : Int) :
    TilesetView.splitCells ⟨x, y, 1, h⟩ =
      (List.range h.toNat).map (fun (r : Nat) => (x, y + (r : Int))) := by
  have key : ∀ l : List Nat,
      l.flatMap (fun (r : Nat) => (List.range (1 : Int).toNat).map
        (fun (c : Nat) => (x + (c : Int), y + (r : Int)))) =
      l.map (fun (r : Nat) => (x, y + (r : Int))) := by
    intro l
    induction l with
    | nil => rfl
    | cons a l ih =>
      have h01 : List.range (1 : Int).toNat = [0] := rfl
      rw [List.flatMap_cons, ih, h01]
      simp
  simp only [TilesetView.splitCells]
  exact key (List.range h.toNat)

/-- Common setup for `splitSpan` on an anchored, exactly-spanning atlas tile:
its recomputed grid position and its span size. -/
theorem splitSpan_setup (m : TilesetModel) (t : Tile) (row col w h : Int)
    (hatlas : m.tileset.isAtlas = true)
    (hwp : 0 < m.tileset.tileWidth + m.tileset.tileSpacing)
    (hhp : 0 < m.tileset.tileHeight + m.tileset.tileSpacing)
    (htw : 1 ≤ m.tileset.tileWidth) (hth : 1 ≤ m.tileset.tileHeight)
    (hx : t.imageRect.x = m.tileset.margin + col * (m.tileset.tileWidth + m.tileset.tileSpacing))
    (hy : t.imageRect.y = m.tileset.margin + row * (m.tileset.tileHeight + m.tileset.tileSpacing))
    (hrow : 0 ≤ row ∧ row < m.tileset.rowCount)
    (hcol : 0 ≤ col ∧ col < m.tileset.columnCount)
    (hmem : t ∈ m.tileset.tiles)
    (hid : t.id = m.tileset.generateTileId col row)
    (huniq : ∀ u ∈ m.tileset.tiles, u.id = t.id → u = t)
    (hrw : t.imageRect.w = w * m.tileset.tileWidth)
    (hrh : t.imageRect.h = h * m.tileset.tileHeight) :
    m.tileIndex t = some (row, col) ∧
    m.tileSpanSize (m.tileIndex t) = ⟨w, h⟩ := by
  have hrows := rowCount_atlas m hatlas
  have hcols := columnCount_atlas m hatlas
  have hix : m.tileIndex t = some (row, col) := by
    rw [tileIndex_anchored m t row col hatlas hwp hhp hx hy]
    exact index_eq_some_of_bounds m ⟨hrow.1, by omega, hcol.1, by omega⟩
  have hAt : m.tileAt (some (row, col)) = some t := by
    have h1 : m.tileAt (some (row, col)) =
        m.tileset.findTile (m.tileset.generateTileId col row) := by
      simp [TilesetModel.tileAt, hatlas]
    rw [h1, ← hid]
    exact findTile_eq_some m.tileset t hmem huniq
  refine ⟨hix, ?_⟩
  rw [hix]
  unfold TilesetModel.tileSpanSize
  rw [if_neg (by simp [hatlas]), hAt]
  show (⟨t.imageRect.w.tdiv m.tileset.tileWidth, t.imageRect.h.tdiv m.tileset.tileHeight⟩ : Size) = _
  rw [hrw, hrh, Int.mul_tdiv_cancel _ (by omega), Int.mul_tdiv_cancel _ (by omega)]

/-- `splitRects` at relative cell (0,0) of a 1×1 span: the left edge wins
(all normalized distances are 0 or 1), keeping an empty right part and
splitting off the single cell. -/
theorem splitRects_unit (bx bY : Int) :
    TilesetView.splitRects bx bY 1 1 0 0 = (⟨bx + 1, bY, 0, 1⟩, ⟨bx, bY, 1, 1⟩) := by
  simp only [TilesetView.splitRects]
  norm_num

/-- `splitSpan` at in-bounds click (0,0) on a tile whose span is exactly 1×1:
the early return is NOT taken; a single `ChangeTileImageRect` resetting the
tile's rectangle to exactly one tile cell is pushed. -/
theorem splitSpan_one_by_one (m : TilesetModel) (t : Tile) (row col : Int)
    (hatlas : m.tileset.isAtlas = true)
    (hwp : 0 < m.tileset.tileWidth + m.tileset.tileSpacing)
    (hhp : 0 < m.tileset.tileHeight + m.tileset.tileSpacing)
    (htw : 1 ≤ m.tileset.tileWidth) (hth : 1 ≤ m.tileset.tileHeight)
    (hx : t.imageRect.x = m.tileset.margin + col * (m.tileset.tileWidth + m.tileset.tileSpacing))
    (hy : t.imageRect.y = m.tileset.margin + row * (m.tileset.tileHeight + m.tileset.tileSpacing))
    (hrow : 0 ≤ row ∧ row < m.tileset.rowCount)
    (hcol : 0 ≤ col ∧ col < m.tileset.columnCount)
    (hmem : t ∈ m.tileset.tiles)
    (hid : t.id = m.tileset.generateTileId col row)
    (huniq : ∀ u ∈ m.tileset.tiles, u.id = t.id → u = t)
    (hrw : t.imageRect.w = m.tileset.tileWidth)
    (hrh : t.imageRect.h = m.tileset.tileHeight) :
    TilesetView.splitSpan m t 0 0 =
      [Cmd.changeTileImageRect t
        ⟨t.imageRect.x, t.imageRect.y, m.tileset.tileWidth, m.tileset.tileHeight⟩] := by
  obtain ⟨hix, hspan⟩ := splitSpan_setup m t row col 1 1 hatlas hwp hhp htw hth hx hy hrow hcol
    hmem hid huniq (by rw [hrw, one_mul]) (by rw [hrh, one_mul])
  have hremove : m.tileset.tiles.filter (fun tile =>
      decide (tile ≠ t) &&
        (TilesetView.toPixelRect m.tileset ⟨col + 1, row, 0, 1⟩).containsPt
          tile.imageRect.x tile.imageRect.y) = [] := by
    apply List.filter_eq_nil_iff.mpr
    intro u _
    have hfalse : (TilesetView.toPixelRect m.tileset ⟨col + 1, row, 0, 1⟩).containsPt
        u.imageRect.x u.imageRect.y = false := by
      apply containsPt_false_of_empty
      · show (0 : Int) ≤ 0 * m.tileset.tileWidth
        rw [zero_mul]
      · show (0 : Int) ≤ 1 * m.tileset.tileHeight
        omega
      · exact Or.inl (zero_mul _)
    simp [hfalse]
  have hcont : (TilesetView.toPixelRect m.tileset ⟨col, row, 1, 1⟩).containsPt
      t.imageRect.x t.imageRect.y = true := by
    rw [containsPt_iff _ (by show (0:Int) ≤ 1 * _; omega) (by show (0:Int) ≤ 1 * _; omega)]
    refine ⟨?_, ?_, ?_, ?_⟩
    · show m.tileset.margin + col * (m.tileset.tileWidth + m.tileset.tileSpacing) ≤ _
      omega
    · show t.imageRect.x <
        m.tileset.margin + col * (m.tileset.tileWidth + m.tileset.tileSpacing) +
          1 * m.tileset.tileWidth
      omega
    · show m.tileset.margin + row * (m.tileset.tileHeight + m.tileset.tileSpacing) ≤ _
      omega
    · show t.imageRect.y <
        m.tileset.margin + row * (m.tileset.tileHeight + m.tileset.tileSpacing) +
          1 * m.tileset.tileHeight
      omega
  have hempty : (⟨col + 1, row, 0, 1⟩ : Rect).isEmpty = true :=
    (isEmpty_iff _).mpr (Or.inl (le_refl 0))
  have hcells : TilesetView.splitCells ⟨col, row, 1, 1⟩ = [(col, row + ((0 : Nat) : Int))] := by
    rw [splitCells_one_col]
    rfl
  have hnew : (TilesetView.splitCells ⟨col, row, 1, 1⟩).filterMap (fun cell =>
      if m.tileset.generateTileId cell.1 cell.2 = t.id then
        none
      else
        some (⟨m.tileset.generateTileId cell.1 cell.2,
               TilesetView.toPixelRect m.tileset ⟨cell.1, cell.2, 1, 1⟩,
               m.tileset.key⟩ : Tile)) = [] := by
    rw [hcells]
    simp [List.filterMap, ← hid]
  simp only [TilesetView.splitSpan, hix, Ix.row, Ix.col, hix ▸ hspan, splitRects_unit]
  rw [if_neg (by decide)]
  simp only [splitRects_unit, hremove, hcont, hempty, hnew]
  simp

/-- C4 counterexample: on a 1×1 atlas whose only tile spans exactly one
cell, `splitSpan` at the in-bounds click (0,0) is NOT a no-op: the guard
only rejects spans ≤ 0 and out-of-bounds clicks, so a `ChangeTileImageRect`
command is still pushed for the 1×1 span. -/
theorem splitSpan_unit_counterexample :
    unitModel.tileSpanSize (unitModel.tileIndex unitTile) = ⟨1, 1⟩ ∧
    TilesetView.splitSpan unitModel unitTile 0 0 =
      [Cmd.changeTileImageRect unitTile ⟨0, 0, 1, 1⟩] ∧
    TilesetView.splitSpan unitModel unitTile 0 0 ≠ [] := by
  have hs := splitSpan_setup unitModel unitTile 0 0 1 1 rfl (by decide) (by decide) (by decide)
    (by decide) (by decide) (by decide) (by decide) (by decide) (by decide) (by decide)
    (by decide) (by decide) (by decide)
  have h := splitSpan_one_by_one unitModel unitTile 0 0 rfl (by decide) (by decide) (by decide)
    (by decide) (by decide) (by decide) (by decide) (by decide) (by decide) (by decide)
    (by decide) (by decide) (by decide)
  refine ⟨hs.2, ?_, ?_⟩
  · rw [h]
    rfl
  · rw [h]
    simp

/-- C4 (amended): `splitSpan` is a no-op — no commands pushed — whenever the
computed span has non-positive width or height or the clicked relative cell
lies outside the span's bounds; a 1×1 span with the in-bounds click (0,0),
however, is not short-circuited: it pushes one `ChangeTileImageRect`
rewriting the tile's rectangle to exactly one tile cell, which leaves the
tileset state unchanged when the rectangle already is exactly tile-sized. -/
theorem splitSpan_degenerate_noop :
    (∀ (m : TilesetModel) (t : Tile) (relativeRow relativeCol : Int),
      ((m.tileSpanSize (m.tileIndex t)).w ≤ 0 ∨ (m.tileSpanSize (m.tileIndex t)).h ≤ 0 ∨
        relativeCol < 0 ∨ relativeCol ≥ (m.tileSpanSize (m.tileIndex t)).w ∨
        relativeRow < 0 ∨ relativeRow ≥ (m.tileSpanSize (m.tileIndex t)).h) →
      TilesetView.splitSpan m t relativeRow relativeCol = []) ∧
    (∀ (m : TilesetModel) (t : Tile) (row col : Int),
      m.tileset.isAtlas = true →
      0 < m.tileset.tileWidth + m.tileset.tileSpacing →
      0 < m.tileset.tileHeight + m.tileset.tileSpacing →
      1 ≤ m.tileset.tileWidth → 1 ≤ m.tileset.tileHeight →
      t.imageRect.x = m.tileset.margin + col * (m.tileset.tileWidth + m.tileset.tileSpacing) →
      t.imageRect.y = m.tileset.margin + row * (m.tileset.tileHeight + m.tileset.tileSpacing) →
      (0 ≤ row ∧ row < m.tileset.rowCount) →
      (0 ≤ col ∧ col < m.tileset.columnCount) →
      t ∈ m.tileset.tiles →
      t.id = m.tileset.generateTileId col row →
      (∀ u ∈ m.tileset.tiles, u.id = t.id → u = t) →
      t.imageRect.w = m.tileset.tileWidth →
      t.imageRect.h = m.tileset.tileHeight →
      TilesetView.splitSpan m t 0 0 = [Cmd.changeTileImageRect t t.imageRect] ∧
      applyCmds m.tileset (TilesetView.splitSpan m t 0 0) = m.tileset) := by
  constructor
  · intro m t relativeRow relativeCol h
    simp only [TilesetView.splitSpan]
    rw [if_pos h]
  · intro m t row col hatlas hwp hhp htw hth hx hy hrow hcol hmem hid huniq hrw hrh
    have h := splitSpan_one_by_one m t row col hatlas hwp hhp htw hth hx hy hrow hcol
      hmem hid huniq hrw hrh
    have hrect : (⟨t.imageRect.x, t.imageRect.y, m.tileset.tileWidth,
        m.tileset.tileHeight⟩ : Rect) = t.imageRect := by
      rw [← hrw, ← hrh]
    rw [hrect] at h
    refine ⟨h, ?_⟩
    rw [h]
    show (applyCmd m.tileset (Cmd.changeTileImageRect t t.imageRect)) = m.tileset
    simp only [applyCmd]
    have hmap : m.tileset.tiles.map
        (fun u => if u = t then { u with imageRect := t.imageRect } else u) =
        m.tileset.tiles := by
      have hfun : ∀ u ∈ m.tileset.tiles,
          (if u = t then { u with imageRect := t.imageRect } else u) = u := by
        intro u _
        by_cases hu : u = t
        · subst hu
          rw [if_pos rfl]
        · rw [if_neg hu]
      calc m.tileset.tiles.map
            (fun u => if u = t then { u with imageRect := t.imageRect } else u) =
          m.tileset.tiles.map id := List.map_congr_left hfun
        _ = m.tileset.tiles := List.map_id _
    rw [hmap]

/-- C4 witness: on the 1×1 atlas fixture, an out-of-bounds click (col −1) is
a no-op, while the in-bounds click (0,0) pushes the self-rewriting command
and leaves the tileset unchanged. -/
theorem splitSpan_degenerate_noop_witness :
    TilesetView.splitSpan unitModel unitTile 0 (-1) = [] ∧
    (TilesetView.splitSpan unitModel unitTile 0 0 =
      [Cmd.changeTileImageRect unitTile unitTile.imageRect] ∧
     applyCmds unitModel.tileset (TilesetView.splitSpan unitModel unitTile 0 0) =
      unitModel.tileset) :=
  ⟨splitSpan_degenerate_noop.1 unitModel unitTile 0 (-1)
      (Or.inr (Or.inr (Or.inl (by decide)))),
    splitSpan_degenerate_noop.2 unitModel unitTile 0 0 rfl (by decide) (by decide) (by decide)
      (by decide) (by decide) (by decide) (by decide) (by decide) (by decide) (by decide)
      (by decide) (by decide) (by decide)⟩

/-- `splitRects` at relative cell (0,0): the left edge wins (normalized
distances are 0, 1, 0, 1 and left is tested first), keeping the right part
and splitting off the left column. -/
theorem splitRects_origin (bx bY w h : Int) :
    TilesetView.splitRects bx bY w h 0 0 = (⟨bx + 1, bY, w - 1, h⟩, ⟨bx, bY, 1, h⟩) := by
  simp only [TilesetView.splitRects]
  norm_num

/-- `splitSpan` at in-bounds click (0,0) on an anchored tile spanning
(w, h) cells with w, h > 1: the tile is resized to a single cell, one new
(w−1)×h spanning tile is created to its right, and the h−1 remaining cells
of the left column become individual 1×1 tiles. -/
theorem splitSpan_span_at_origin (m : TilesetModel) (t : Tile) (row col w h : Int)
    (hatlas : m.tileset.isAtlas = true)
    (hwp : 0 < m.tileset.tileWidth + m.tileset.tileSpacing)
    (hhp : 0 < m.tileset.tileHeight + m.tileset.tileSpacing)
    (htw : 1 ≤ m.tileset.tileWidth) (hth : 1 ≤ m.tileset.tileHeight)
    (hx : t.imageRect.x = m.tileset.margin + col * (m.tileset.tileWidth + m.tileset.tileSpacing))
    (hy : t.imageRect.y = m.tileset.margin + row * (m.tileset.tileHeight + m.tileset.tileSpacing))
    (hrow : 0 ≤ row ∧ row < m.tileset.rowCount)
    (hcol : 0 ≤ col ∧ col < m.tileset.columnCount)
    (hmem : t ∈ m.tileset.tiles)
    (hid : t.id = m.tileset.generateTileId col row)
    (huniq : ∀ u ∈ m.tileset.tiles, u.id = t.id → u = t)
    (hrw : t.imageRect.w = w * m.tileset.tileWidth)
    (hrh : t.imageRect.h = h * m.tileset.tileHeight)
    (hw2 : 1 < w) (hh2 : 1 < h)
    (hskip : ∀ k ∈ List.range h.toNat, 1 ≤ k →
      m.tileset.generateTileId col (row + (k : Int)) ≠ t.id)
    (hfree : ∀ u ∈ m.tileset.tiles, u ≠ t →
      (TilesetView.toPixelRect m.tileset ⟨col + 1, row, w - 1, h⟩).containsPt
        u.imageRect.x u.imageRect.y = false) :
    TilesetView.splitSpan m t 0 0 =
      [Cmd.changeTileImageRect t
        ⟨t.imageRect.x, t.imageRect.y, m.tileset.tileWidth, m.tileset.tileHeight⟩,
       Cmd.addTiles [⟨m.tileset.generateTileId (col + 1) row,
                      TilesetView.toPixelRect m.tileset ⟨col + 1, row, w - 1, h⟩,
                      m.tileset.key⟩],
       Cmd.addTiles ((List.range (h.toNat - 1)).map (fun (k : Nat) =>
         (⟨m.tileset.generateTileId col (row + (k : Int) + 1),
           TilesetView.toPixelRect m.tileset ⟨col, row + (k : Int) + 1, 1, 1⟩,
           m.tileset.key⟩ : Tile)))] := by
  obtain ⟨hix, hspan⟩ := splitSpan_setup m t row col w h hatlas hwp hhp htw hth hx hy hrow hcol
    hmem hid huniq hrw hrh
  have hthh : (0 : Int) < h * m.tileset.tileHeight := mul_pos (by omega) (by omega)
  have hremove : m.tileset.tiles.filter (fun tile =>
      decide (tile ≠ t) &&
        (TilesetView.toPixelRect m.tileset ⟨col + 1, row, w - 1, h⟩).containsPt
          tile.imageRect.x tile.imageRect.y) = [] := by
    apply List.filter_eq_nil_iff.mpr
    intro u hu
    by_cases hut : u = t
    · simp [hut]
    · simp [hut, hfree u hu hut]
  have hcont : (TilesetView.toPixelRect m.tileset ⟨col, row, 1, h⟩).containsPt
      t.imageRect.x t.imageRect.y = true := by
    rw [containsPt_iff _ (by show (0:Int) ≤ 1 * _; omega)
      (by show (0:Int) ≤ h * m.tileset.tileHeight; omega)]
    refine ⟨?_, ?_, ?_, ?_⟩
    · show m.tileset.margin + col * (m.tileset.tileWidth + m.tileset.tileSpacing) ≤ _
      omega
    · show t.imageRect.x <
        m.tileset.margin + col * (m.tileset.tileWidth + m.tileset.tileSpacing) +
          1 * m.tileset.tileWidth
      omega
    · show m.tileset.margin + row * (m.tileset.tileHeight + m.tileset.tileSpacing) ≤ _
      omega
    · show t.imageRect.y <
        m.tileset.margin + row * (m.tileset.tileHeight + m.tileset.tileSpacing) +
          h * m.tileset.tileHeight
      linarith [hy]
  have hnotempty : (⟨col + 1, row, w - 1, h⟩ : Rect).isEmpty = false := by
    simp only [Rect.isEmpty, Bool.or_eq_false_iff, decide_eq_false_iff_not]
    constructor <;> omega
  have hn1 : h.toNat = (h.toNat - 1) + 1 := by omega
  have hnew : (TilesetView.splitCells ⟨col, row, 1, h⟩).filterMap (fun cell =>
      if m.tileset.generateTileId cell.1 cell.2 = t.id then
        none
      else
        some (⟨m.tileset.generateTileId cell.1 cell.2,
               TilesetView.toPixelRect m.tileset ⟨cell.1, cell.2, 1, 1⟩,
               m.tileset.key⟩ : Tile)) =
      (List.range (h.toNat - 1)).map (fun (k : Nat) =>
        (⟨m.tileset.generateTileId col (row + (k : Int) + 1),
          TilesetView.toPixelRect m.tileset ⟨col, row + (k : Int) + 1, 1, 1⟩,
          m.tileset.key⟩ : Tile)) := by
    rw [splitCells_one_col, hn1, List.range_succ_eq_map, List.map_cons, List.map_map,
      List.filterMap_cons]
    have hf0 : (if m.tileset.generateTileId col (row + ((0 : Nat) : Int)) = t.id then none
        else some (⟨m.tileset.generateTileId col (row + ((0 : Nat) : Int)),
          TilesetView.toPixelRect m.tileset ⟨col, row + ((0 : Nat) : Int), 1, 1⟩,
          m.tileset.key⟩ : Tile)) = none := by
      rw [if_pos]
      rw [hid]
      norm_num
    rw [hf0, List.filterMap_map]
    apply filterMap_eq_map_of_forall
    intro k hk
    have hk1 : (1 : Nat) ≤ k + 1 := by omega
    have hkmem : k + 1 ∈ List.range h.toNat := by
      rw [List.mem_range] at hk ⊢
      omega
    have hgen : m.tileset.generateTileId col (row + ((k + 1 : Nat) : Int)) ≠ t.id :=
      hskip (k + 1) hkmem hk1
    have hcast : row + ((k + 1 : Nat) : Int) = row + (k : Int) + 1 := by
      push_cast
      ring
    show (if m.tileset.generateTileId col (row + ((k + 1 : Nat) : Int)) = t.id then none
        else some (⟨m.tileset.generateTileId col (row + ((k + 1 : Nat) : Int)),
          TilesetView.toPixelRect m.tileset ⟨col, row + ((k + 1 : Nat) : Int), 1, 1⟩,
          m.tileset.key⟩ : Tile)) = _
    rw [if_neg hgen, hcast]
  have hunits_ne : ((List.range (h.toNat - 1)).map (fun (k : Nat) =>
      (⟨m.tileset.generateTileId col (row + (k : Int) + 1),
        TilesetView.toPixelRect m.tileset ⟨col, row + (k : Int) + 1, 1, 1⟩,
        m.tileset.key⟩ : Tile))).isEmpty = false := by
    have : h.toNat - 1 ≠ 0 := by omega
    simp [List.isEmpty_iff, List.range_eq_nil, this]
  simp only [TilesetView.splitSpan, hix, Ix.row, Ix.col, hix ▸ hspan, splitRects_origin]
  rw [if_neg (by omega)]
  simp only [splitRects_origin, hremove, hcont, hnotempty, hnew, hunits_ne]
  simp

/-- C3 counterexample: splitting the 2×2 span at relative cell (0,0) does
NOT produce `w*h − 1 = 3` new 1×1 tiles: it produces only 2 new tiles, one
of which is a 1×2-cell spanning tile, so the result has 3 tiles (not 4) and
not all of them are 1×1. -/
theorem splitSpan_no_full_decomposition :
    TilesetView.splitSpan spanModel spanTile2 0 0 =
      [Cmd.changeTileImageRect spanTile2 ⟨0, 0, 1, 1⟩,
       Cmd.addTiles [⟨1, ⟨1, 0, 1, 2⟩, 0⟩],
       Cmd.addTiles [⟨4, ⟨0, 1, 1, 1⟩, 0⟩]] ∧
    (applyCmds spanTs (TilesetView.splitSpan spanModel spanTile2 0 0)).tiles =
      [⟨0, ⟨0, 0, 1, 1⟩, 0⟩, ⟨1, ⟨1, 0, 1, 2⟩, 0⟩, ⟨4, ⟨0, 1, 1, 1⟩, 0⟩] ∧
    (applyCmds spanTs (TilesetView.splitSpan spanModel spanTile2 0 0)).tiles.length ≠ 4 ∧
    ¬(∀ u ∈ (applyCmds spanTs (TilesetView.splitSpan spanModel spanTile2 0 0)).tiles,
        u.imageRect.w = spanTs.tileWidth ∧ u.imageRect.h = spanTs.tileHeight) := by
  have h := splitSpan_span_at_origin spanModel spanTile2 0 0 2 2 rfl (by decide) (by decide)
    (by decide) (by decide) (by decide) (by decide) (by decide) (by decide) (by decide)
    (by decide) (by decide) (by decide) (by decide) (by decide) (by decide) (by decide)
    (by decide)
  refine ⟨?_, ?_, ?_, ?_⟩ <;> rw [h] <;> decide

/-- C3 (amended): splitting a (w, h)-cell span (w, h > 1) at relative cell
(0,0) shrinks the original tile to 1×1 at its position, creates one new
(w−1)×h spanning tile immediately to its right, and creates h−1 new 1×1
tiles on the remaining left-column cells; none of the resulting image
rectangles overlap. -/
theorem splitSpan_origin_decomposition (m : TilesetModel) (t : Tile) (row col w h : Int)
    (hatlas : m.tileset.isAtlas = true)
    (hwp : 0 < m.tileset.tileWidth + m.tileset.tileSpacing)
    (hhp : 0 < m.tileset.tileHeight + m.tileset.tileSpacing)
    (htw : 1 ≤ m.tileset.tileWidth) (hth : 1 ≤ m.tileset.tileHeight)
    (hsp : 0 ≤ m.tileset.tileSpacing)
    (hx : t.imageRect.x = m.tileset.margin + col * (m.tileset.tileWidth + m.tileset.tileSpacing))
    (hy : t.imageRect.y = m.tileset.margin + row * (m.tileset.tileHeight + m.tileset.tileSpacing))
    (hrow : 0 ≤ row ∧ row < m.tileset.rowCount)
    (hcol : 0 ≤ col ∧ col < m.tileset.columnCount)
    (hmem : t ∈ m.tileset.tiles)
    (hid : t.id = m.tileset.generateTileId col row)
    (huniq : ∀ u ∈ m.tileset.tiles, u.id = t.id → u = t)
    (hrw : t.imageRect.w = w * m.tileset.tileWidth)
    (hrh : t.imageRect.h = h * m.tileset.tileHeight)
    (hw2 : 1 < w) (hh2 : 1 < h)
    (hskip : ∀ k ∈ List.range h.toNat, 1 ≤ k →
      m.tileset.generateTileId col (row + (k : Int)) ≠ t.id)
    (hfree : ∀ u ∈ m.tileset.tiles, u ≠ t →
      (TilesetView.toPixelRect m.tileset ⟨col + 1, row, w - 1, h⟩).containsPt
        u.imageRect.x u.imageRect.y = false) :
    TilesetView.splitSpan m t 0 0 =
      [Cmd.changeTileImageRect t
        ⟨t.imageRect.x, t.imageRect.y, m.tileset.tileWidth, m.tileset.tileHeight⟩,
       Cmd.addTiles [⟨m.tileset.generateTileId (col + 1) row,
                      TilesetView.toPixelRect m.tileset ⟨col + 1, row, w - 1, h⟩,
                      m.tileset.key⟩],
       Cmd.addTiles ((List.range (h.toNat - 1)).map (fun (k : Nat) =>
         (⟨m.tileset.generateTileId col (row + (k : Int) + 1),
           TilesetView.toPixelRect m.tileset ⟨col, row + (k : Int) + 1, 1, 1⟩,
           m.tileset.key⟩ : Tile)))] ∧
    List.Pairwise Rect.disjointWith
      (⟨t.imageRect.x, t.imageRect.y, m.tileset.tileWidth, m.tileset.tileHeight⟩ ::
       TilesetView.toPixelRect m.tileset ⟨col + 1, row, w - 1, h⟩ ::
       (List.range (h.toNat - 1)).map (fun (k : Nat) =>
         TilesetView.toPixelRect m.tileset ⟨col, row + (k : Int) + 1, 1, 1⟩)) := by
  refine ⟨splitSpan_span_at_origin m t row col w h hatlas hwp hhp htw hth hx hy hrow hcol
    hmem hid huniq hrw hrh hw2 hh2 hskip hfree, ?_⟩
  have hxspan : ∀ px : Int, px = m.tileset.margin + col *
      (m.tileset.tileWidth + m.tileset.tileSpacing) →
      px + m.tileset.tileWidth ≤
        m.tileset.margin + (col + 1) * (m.tileset.tileWidth + m.tileset.tileSpacing) := by
    intro px hpx
    have hexp : (col + 1) * (m.tileset.tileWidth + m.tileset.tileSpacing) =
        col * (m.tileset.tileWidth + m.tileset.tileSpacing) +
          (m.tileset.tileWidth + m.tileset.tileSpacing) := by ring
    rw [hexp]
    linarith
  refine List.Pairwise.cons ?_ (List.Pairwise.cons ?_ ?_)
  · intro b hb
    rcases List.mem_cons.mp hb with hb1 | hb2
    · subst hb1
      exact Or.inl (hx ▸ hxspan t.imageRect.x hx)
    · rcases List.mem_map.mp hb2 with ⟨k, _, rfl⟩
      refine Or.inr (Or.inr (Or.inl ?_))
      show t.imageRect.y + m.tileset.tileHeight ≤
        m.tileset.margin + (row + (k : Int) + 1) *
          (m.tileset.tileHeight + m.tileset.tileSpacing)
      have hk0 : (0 : Int) ≤ (k : Int) := Int.natCast_nonneg k
      have hexp : (row + (k : Int) + 1) * (m.tileset.tileHeight + m.tileset.tileSpacing) =
          row * (m.tileset.tileHeight + m.tileset.tileSpacing) +
            ((k : Int) + 1) * (m.tileset.tileHeight + m.tileset.tileSpacing) := by ring
      have hmul : (1 : Int) * (m.tileset.tileHeight + m.tileset.tileSpacing) ≤
          ((k : Int) + 1) * (m.tileset.tileHeight + m.tileset.tileSpacing) :=
        mul_le_mul_of_nonneg_right (by omega) (by omega)
      rw [hexp]
      linarith
  · intro b hb
    rcases List.mem_map.mp hb with ⟨k, _, rfl⟩
    refine Or.inr (Or.inl ?_)
    show m.tileset.margin + col * (m.tileset.tileWidth + m.tileset.tileSpacing) +
        1 * m.tileset.tileWidth ≤
      m.tileset.margin + (col + 1) * (m.tileset.tileWidth + m.tileset.tileSpacing)
    have := hxspan (m.tileset.margin + col *
      (m.tileset.tileWidth + m.tileset.tileSpacing)) rfl
    linarith
  · rw [List.pairwise_map]
    refine List.Pairwise.imp ?_ (List.pairwise_lt_range _)
    intro j k hjk
    refine Or.inr (Or.inr (Or.inl ?_))
    show m.tileset.margin + (row + (j : Int) + 1) *
        (m.tileset.tileHeight + m.tileset.tileSpacing) + 1 * m.tileset.tileHeight ≤
      m.tileset.margin + (row + (k : Int) + 1) *
        (m.tileset.tileHeight + m.tileset.tileSpacing)
    have hjkz : (j : Int) + 1 ≤ (k : Int) := by exact_mod_cast hjk
    have hexp : (row + (k : Int) + 1) * (m.tileset.tileHeight + m.tileset.tileSpacing) =
        (row + (j : Int) + 1) * (m.tileset.tileHeight + m.tileset.tileSpacing) +
          ((k : Int) - (j : Int)) * (m.tileset.tileHeight + m.tileset.tileSpacing) := by ring
    have hmul : (1 : Int) * (m.tileset.tileHeight + m.tileset.tileSpacing) ≤
        ((k : Int) - (j : Int)) * (m.tileset.tileHeight + m.tileset.tileSpacing) :=
      mul_le_mul_of_nonneg_right (by omega) (by omega)
    rw [hexp]
    linarith

/-- C3 witness: splitting the 3×2 span at (0,0) on the 8×8 unit atlas — the
original shrinks to 1×1, a 2×2 spanning tile is created at cell (2,1), and
one 1×1 tile at cell (1,2); the rectangles are pairwise disjoint. -/
theorem splitSpan_origin_decomposition_witness :
    TilesetView.splitSpan span32Model span32Tile 0 0 =
      [Cmd.changeTileImageRect span32Tile
        ⟨span32Tile.imageRect.x, span32Tile.imageRect.y,
         span32Model.tileset.tileWidth, span32Model.tileset.tileHeight⟩,
       Cmd.addTiles [⟨span32Model.tileset.generateTileId (1 + 1) 1,
                      TilesetView.toPixelRect span32Model.tileset ⟨1 + 1, 1, 3 - 1, 2⟩,
                      span32Model.tileset.key⟩],
       Cmd.addTiles ((List.range ((2 : Int).toNat - 1)).map (fun (k : Nat) =>
         (⟨span32Model.tileset.generateTileId 1 (1 + (k : Int) + 1),
           TilesetView.toPixelRect span32Model.tileset ⟨1, 1 + (k : Int) + 1, 1, 1⟩,
           span32Model.tileset.key⟩ : Tile)))] ∧
    List.Pairwise Rect.disjointWith
      (⟨span32Tile.imageRect.x, span32Tile.imageRect.y,
        span32Model.tileset.tileWidth, span32Model.tileset.tileHeight⟩ ::
       TilesetView.toPixelRect span32Model.tileset ⟨1 + 1, 1, 3 - 1, 2⟩ ::
       (List.range ((2 : Int).toNat - 1)).map (fun (k : Nat) =>
         TilesetView.toPixelRect span32Model.tileset ⟨1, 1 + (k : Int) + 1, 1, 1⟩)) :=
  splitSpan_origin_decomposition span32Model span32Tile 1 1 3 2 rfl (by decide) (by decide)
    (by decide) (by decide) (by decide) (by decide) (by decide) (by decide) (by decide)
    (by decide) (by decide) (by decide) (by decide) (by decide) (by decide) (by decide)
    (by decide) (by decide)

end Tiled
